import Mathlib

/-!
Verification of the vitrine display-server code base: a shallow embedding of
the data model and the operations of `server.py`, `artifacts.py`,
`study_manager.py`, `renderer.py` and `dispatch.py`, with theorems settling
the specification claims.
-/

namespace Vitrine

/-- Values inside a nested JSON object such as a card's `preview` dict.
Nested objects are modelled one level deep; every field the claims touch
(`preview.status`, `preview.error`) is a flat string. -/
inductive PVal where
  | s (v : String)
  | b (v : Bool)
  | i (v : Int)
  | null
  deriving DecidableEq, Repr

/-- JSON-like values as they appear in card records, `meta.json` files and
payload dicts. The `enum` constructor stands for a raw Python enum object
(such as a `CardType`) stored unconverted; its field is the enum's
`.value`. The `pdict` constructor is a nested JSON object (e.g. a card's
`preview`). -/
inductive JVal where
  | s (v : String)
  | b (v : Bool)
  | i (v : Int)
  | null
  | enum (v : String)
  | pdict (fields : List (String × PVal))
  deriving DecidableEq, Repr

/-- A card record: the JSON dict stored in a study's `index.json`.
Python dicts are modelled as association lists with unique keys. -/
abbrev CardRec := List (String × JVal)

/-- First-match lookup in an association list (Python `d.get(k)`). -/
def alookup {α : Type} (l : List (String × α)) (k : String) : Option α :=
  match l with
  | [] => none
  | (k', v) :: rest => if k' = k then some v else alookup rest k

/-- Set a key in an association list (Python `d[k] = v`): replace the first
binding of the key, or append a new binding. -/
def aset {α : Type} (l : List (String × α)) (k : String) (v : α) :
    List (String × α) :=
  match l with
  | [] => [(k, v)]
  | (k', v') :: rest => if k' = k then (k, v) :: rest else (k', v') :: aset rest k v

/-- Remove a key from an association list (Python `d.pop(k, None)` /
`del d[k]`); removes the first binding, which is the only one for dicts. -/
def aerase {α : Type} (l : List (String × α)) (k : String) :
    List (String × α) :=
  match l with
  | [] => []
  | (k', v') :: rest => if k' = k then rest else (k', v') :: aerase rest k

/-! ## PID file removal (`DisplayServer._remove_pid_file`, server.py) -/

/-- State of the PID file on disk: absent, present but not valid JSON
(`json.loads` raises), or present with the recorded `"pid"` field
(`none` when the parsed dict has no `"pid"` key). -/
inductive PidFile where
  | absent
  | unreadable
  | parsed (pid : Option Int)
  deriving DecidableEq, Repr

/-- State relevant to `_remove_pid_file`: whether `self._pid_path` is set,
and the PID file on disk. -/
structure PidSt where
  pidPath : Bool
  file : PidFile
  deriving DecidableEq, Repr

/-- Embedding of `DisplayServer._remove_pid_file`: returns the new state.
If `self._pid_path` is unset or the file is gone, just clear the path.
Otherwise parse the file; a parse error is swallowed and the file left;
a recorded pid different from our own leaves the file; only a matching
recorded pid unlinks it. In every case `self._pid_path` ends up `None`. -/
def remove_pid_file (ownPid : Int) (st : PidSt) : PidSt :=
  if st.pidPath = false ∨ st.file = PidFile.absent then
    { st with pidPath := false }
  else
    match st.file with
    | PidFile.absent => { st with pidPath := false }
    | PidFile.unreadable => { pidPath := false, file := PidFile.unreadable }
    | PidFile.parsed p =>
      if p = some ownPid then { pidPath := false, file := PidFile.absent }
      else { pidPath := false, file := PidFile.parsed p }

/-! ## `ArtifactStore.update_card` (artifacts.py) -/

/-- Conversion `update_card` applies to each change value: a Python
`CardType` enum object under the key `"card_type"` is stored as its
`.value` string; any other value is stored as given. -/
def coerceChange (k : String) (v : JVal) : JVal :=
  match v with
  | JVal.enum s => if k = "card_type" then JVal.s s else JVal.enum s
  | v => v

/-- Merge the keyword changes into a card dict, in order
(`for key, value in changes.items(): d[key] = ...`). -/
def mergeChanges (d : CardRec) (changes : List (String × JVal)) : CardRec :=
  changes.foldl (fun d kv => aset d kv.1 (coerceChange kv.1 kv.2)) d

/-- Embedding of `ArtifactStore.update_card`: scan the index for the first
record whose `"card_id"` equals `card_id`; on a hit merge the changes into
that record, rewrite the whole index and return the merged record; on a
miss return `None` without writing. The result is
`(returned value, index as left on disk, whether _write_index ran)`. -/
def update_card (index : List CardRec) (card_id : String)
    (changes : List (String × JVal)) :
    Option CardRec × List CardRec × Bool :=
  match index with
  | [] => (none, [], false)
  | d :: rest =>
    if alookup d "card_id" = some (JVal.s card_id) then
      let d' := mergeChanges d changes
      (some d', d' :: rest, true)
    else
      let r := update_card rest card_id changes
      (r.1, d :: r.2.1, r.2.2)

/-! ## Table paging limits (`read_table_page`, artifacts.py and
`DisplayServer._api_table`, server.py) -/

/-- The limit clamp performed by `DisplayServer._api_table`:
`limit = max(1, min(int(...), 10000))`. -/
def apiLimit (limit : Int) : Int := max 1 (min limit 10000)

/-- The offset clamp performed by `DisplayServer._api_table`:
`offset = max(0, int(...))`. -/
def apiOffset (offset : Int) : Int := max 0 offset

/-- The paging tail `ArtifactStore.read_table_page` appends to its SQL
query: `query += f" LIMIT {int(limit)} OFFSET {int(offset)}"`. The limit
and offset arguments are interpolated unchanged — `read_table_page` itself
performs no clamping. -/
def readTablePageTail (limit offset : Int) : String :=
  " LIMIT " ++ toString limit ++ " OFFSET " ++ toString offset

/-- The paging tail produced for an HTTP request: `_api_table` clamps
before calling `read_table_page`. -/
def apiTableTail (limit offset : Int) : String :=
  readTablePageTail (apiLimit limit) (apiOffset offset)

/-! ## Python string primitives (ASCII model) -/

/-- Python whitespace for `str.strip()` and the regex class `\s`
(ASCII model): space, tab, newline, carriage return, vertical tab,
form feed. -/
def pyIsSpace (c : Char) : Bool :=
  c = ' ' || c = '\t' || c = '\n' || c = '\r' || c = '\x0b' || c = '\x0c'

/-- Python `str.strip()`: drop leading and trailing whitespace. -/
def pyStrip (l : List Char) : List Char :=
  ((l.dropWhile pyIsSpace).reverse.dropWhile pyIsSpace).reverse

/-- Python `str.strip(c)` for a single character argument. -/
def stripChar (c : Char) (l : List Char) : List Char :=
  ((l.dropWhile (· = c)).reverse.dropWhile (· = c)).reverse

/-- Lexicographic code-point comparison of character lists: the order
Python uses to compare strings. -/
def charListLe : List Char → List Char → Bool
  | [], _ => true
  | _ :: _, [] => false
  | c :: r, d :: t =>
    if c.val < d.val then true
    else if d.val < c.val then false
    else charListLe r t

/-- Python string `<=` on the code-point order. -/
def strLeB (a b : String) : Bool := charListLe a.data b.data

/-- Split a character list at the first occurrence of a separator. -/
def splitOnce (sep : Char) : List Char → Option (List Char × List Char)
  | [] => none
  | c :: rest =>
    if c = sep then some ([], rest)
    else (splitOnce sep rest).map (fun p => (c :: p.1, p.2))

/-- Python `s.split("_", 2)`: at most two splits, remainder kept whole. -/
def pySplit2Underscore (s : String) : List String :=
  match splitOnce '_' s.data with
  | none => [s]
  | some (a, rest) =>
    match splitOnce '_' rest with
    | none => [String.mk a, String.mk rest]
    | some (b, c) => [String.mk a, String.mk b, String.mk c]

/-! ## Study labels and directory names (study_manager.py) -/

/-- A character counted as `[a-z0-9]` by `_sanitize_label`'s regex. -/
def isLowerAlnum (c : Char) : Bool :=
  (97 ≤ c.val && c.val ≤ 122) || (48 ≤ c.val && c.val ≤ 57)

/-- The substitution `re.sub(r"[^a-z0-9]+", "-", s)`: every maximal run of
characters outside `[a-z0-9]` becomes a single hyphen. -/
def collapseNonAlnum : List Char → List Char
  | [] => []
  | c :: rest =>
    let tail := collapseNonAlnum rest
    if isLowerAlnum c then c :: tail
    else
      match tail with
      | [] => ['-']
      | d :: _ => if d = '-' then tail else '-' :: tail

/-- Embedding of `_sanitize_label` (ASCII model of `str.lower`):
lowercase, collapse non-alphanumeric runs to hyphens, strip hyphens,
truncate to 64 characters, defaulting to `"unnamed"`. -/
def sanitize_label (label : String) : String :=
  let lowered := label.data.map Char.toLower
  let stripped := stripChar '-' (collapseNonAlnum lowered)
  let truncated := stripped.take 64
  if truncated.isEmpty then "unnamed" else String.mk truncated

/-- The new directory name `rename_study` builds: keep the first two
underscore-separated components (the timestamp prefix) of the old name and
replace the label suffix. `none` models the `IndexError` raised when the
old name has no underscore at all. -/
def rename_dir_name (oldDirName newLabel : String) : Option String :=
  match pySplit2Underscore oldDirName with
  | a :: b :: _ => some (a ++ "_" ++ b ++ "_" ++ sanitize_label newLabel)
  | _ => none

/-! ## Card field accessors (`_deserialize_card`, artifacts.py) -/

/-- The `card_id` field of a stored record (`d["card_id"]`; records written
by `_serialize_card` always carry it). -/
def cardIdD (d : CardRec) : String :=
  match alookup d "card_id" with
  | some (JVal.s v) => v
  | _ => ""

/-- The card type string, with the legacy alias `"form"` mapped to
`"decision"` as in `_deserialize_card`. -/
def card_typeD (d : CardRec) : Option String :=
  match alookup d "card_type" with
  | some (JVal.s v) => some (if v = "form" then "decision" else v)
  | _ => none

/-- The `study` field (`d.get("study")`), `none` for missing or null. -/
def cardStudy (d : CardRec) : Option String :=
  match alookup d "study" with
  | some (JVal.s v) => some v
  | _ => none

/-- The sort key `c.timestamp or ""` used by `list_all_cards`. -/
def cardTimestamp (d : CardRec) : String :=
  match alookup d "timestamp" with
  | some (JVal.s v) => v
  | _ => ""

/-- The `deleted` flag (`d.get("deleted", False)`). -/
def cardDeleted (d : CardRec) : Bool :=
  match alookup d "deleted" with
  | some (JVal.b v) => v
  | _ => false

/-- The truthy `preview` dict of a card: `none` both for a missing/null
preview and for an empty dict, which are falsy in `if card.preview`. -/
def cardPreview (d : CardRec) : Option (List (String × PVal)) :=
  match alookup d "preview" with
  | some (JVal.pdict l) => if l.isEmpty then none else some l
  | _ => none

/-- The agent status `card.preview.get("status", "pending") if card.preview
else "pending"` computed by `reconcile_orphaned_agents`. -/
def previewStatus (d : CardRec) : PVal :=
  match cardPreview d with
  | some p =>
    match alookup p "status" with
    | some v => v
    | none => PVal.s "pending"
  | none => PVal.s "pending"

/-! ## Stable sorting (Python `list.sort(key=...)`) -/

/-- Insert into a sorted list, before the first element not `le`-smaller:
the insertion step of a stable sort. -/
def stableInsert {α : Type} (le : α → α → Bool) (x : α) : List α → List α
  | [] => [x]
  | y :: rest => if le x y then x :: y :: rest else y :: stableInsert le x rest

/-- Stable sort (Python's `list.sort` is stable; a stable sort of a list by
a key is unique, so insertion sort gives the same list as Timsort). -/
def stableSort {α : Type} (le : α → α → Bool) : List α → List α
  | [] => []
  | x :: rest => stableInsert le x (stableSort le rest)

/-! ## Study manager state (study_manager.py) -/

/-- The `start_time` entry of a `meta.json` with the outcome of
`datetime.fromisoformat` carried as data (the datetime library is not
re-modelled): `missing` = key absent or null, `empty` = falsy empty
string, `bad` = a truthy string `fromisoformat` rejects (ValueError), and
`ok ts` = a parseable timestamp with POSIX value `ts` seconds. -/
inductive StartVal where
  | missing
  | empty
  | bad (s : String)
  | ok (ts : ℚ)
  deriving DecidableEq, Repr

/-- A `meta.json` file: either unreadable (`json.loads` raises) or a JSON
object with generic fields plus its `start_time` entry. -/
inductive MetaFile where
  | corrupt
  | json (fields : List (String × JVal)) (start : StartVal)
  deriving DecidableEq, Repr

/-- One directory under `.vitrine/studies/`: its `index.json` contents
(a missing or corrupt index file reads as `[]`) and its `meta.json`
(`none` = missing). -/
structure StudyDir where
  index : List CardRec
  meta : Option MetaFile
  deriving DecidableEq, Repr

/-- The `StudyManager` state: the three in-memory mappings plus the
on-disk `studies/` directory. `stores` maps each key of `self._stores` to
the directory its `ArtifactStore` currently points at (`relocate` changes
the pointer); in every state the code itself produces, a store points at
its own key. -/
structure SMState where
  labelToDir : List (String × String)
  stores : List (String × String)
  cardIndex : List (String × String)
  disk : List (String × StudyDir)
  deriving DecidableEq, Repr

/-- The cards a store reads from the directory it points at
(`_read_index`; a missing directory reads as an empty index). -/
def storeIndexAt (sm : SMState) (ptr : String) : List CardRec :=
  match alookup sm.disk ptr with
  | some sd => sd.index
  | none => []

/-- `ArtifactStore.list_cards`: all records in insertion order, optionally
filtered to one study label. -/
def list_cards (index : List CardRec) (study : Option String) : List CardRec :=
  match study with
  | none => index
  | some s => index.filter (fun d => cardStudy d == some s)

/-- The concatenation `all_cards` that `list_all_cards` builds before
sorting: every study's store contents, in label-registration order. -/
def gatherAll (sm : SMState) : List CardRec :=
  ((sm.labelToDir.map Prod.snd).map (fun dn =>
    match alookup sm.stores dn with
    | some ptr => storeIndexAt sm ptr
    | none => [])).flatten

/-- `StudyManager.list_all_cards`: for a given label, all cards of that
study's store (note: unfiltered `store.list_cards()`); with no label, the
concatenation over all studies sorted stably by `c.timestamp or ""`. -/
def list_all_cards (sm : SMState) (study : Option String) : List CardRec :=
  match study with
  | some label =>
    match alookup sm.labelToDir label with
    | none => []
    | some dirName =>
      match alookup sm.stores dirName with
      | none => []
      | some ptr => storeIndexAt sm ptr
  | none =>
    stableSort (fun a b => strLeB (cardTimestamp a) (cardTimestamp b))
      (gatherAll sm)

/-- `StudyManager.delete_study`: remove the directory from disk and the
study from all three mappings; `false` when the label is unknown. -/
def delete_study (sm : SMState) (study : String) : Bool × SMState :=
  match alookup sm.labelToDir study with
  | none => (false, sm)
  | some dirName =>
    (true,
      { labelToDir := aerase sm.labelToDir study
        stores := aerase sm.stores dirName
        cardIndex := sm.cardIndex.filter (fun p => p.2 != dirName)
        disk := aerase sm.disk dirName })

/-- `ArtifactStore.rename_study`: rewrite the `study` field of every
record matching the old label. -/
def renameIndexStudy (oldLabel newLabel : String) (index : List CardRec) :
    List CardRec :=
  index.map (fun d =>
    if alookup d "study" = some (JVal.s oldLabel)
    then aset d "study" (JVal.s newLabel) else d)

/-- Rewrite one directory's `index.json` through a store that points at
`dirName` (no effect when the directory is gone: nothing to write). -/
def diskSetIndex (disk : List (String × StudyDir)) (dirName : String)
    (f : List CardRec → List CardRec) : List (String × StudyDir) :=
  match alookup disk dirName with
  | some sd => aset disk dirName { sd with index := f sd.index }
  | none => disk

/-- The directory rename step of `rename_study`:
`if old_dir.exists() and not new_dir.exists(): old_dir.rename(new_dir)`. -/
def diskRenameDir (disk : List (String × StudyDir)) (oldD newD : String) :
    List (String × StudyDir) :=
  match alookup disk oldD with
  | some sd =>
    if (alookup disk newD).isSome then disk
    else aset (aerase disk oldD) newD sd
  | none => disk

/-- The `meta.json` rewrite step of `rename_study`: if the file exists and
parses, set its `label` and `dir_name` and write it back atomically
(`_atomic_write_json`, temp file plus `os.replace`, modelled as one
update); a missing or corrupt file is silently left alone. -/
def diskRenameMeta (disk : List (String × StudyDir))
    (dirName newLabel newDirName : String) : List (String × StudyDir) :=
  match alookup disk dirName with
  | some sd =>
    match sd.meta with
    | some (MetaFile.json fields st) =>
      aset disk dirName { sd with meta := some (MetaFile.json
        (aset (aset fields "label" (JVal.s newLabel))
          "dir_name" (JVal.s newDirName)) st) }
    | _ => disk
  | none => disk

/-- Embedding of `StudyManager.rename_study`. `none` models the uncaught
`IndexError` on a directory name with no underscore; otherwise
`some (returned bool, new state)`, with the steps in source order: the
three failure checks, the store-level `study`-field rewrite (while the
store still points at the old path), the directory rename, `relocate`,
the in-memory mapping updates, and the `meta.json` rewrite. -/
def rename_study (sm : SMState) (oldLabel newLabel : String) :
    Option (Bool × SMState) :=
  match alookup sm.labelToDir oldLabel with
  | none => some (false, sm)
  | some oldDirName =>
    if (alookup sm.labelToDir newLabel).isSome then some (false, sm)
    else if (pyStrip newLabel.data).isEmpty then some (false, sm)
    else
      match rename_dir_name oldDirName newLabel with
      | none => none
      | some newDirName =>
        let disk1 :=
          match alookup sm.stores oldDirName with
          | some ptr => diskSetIndex sm.disk ptr
              (renameIndexStudy oldLabel newLabel)
          | none => sm.disk
        let disk2 := diskRenameDir disk1 oldDirName newDirName
        let stores1 :=
          match alookup sm.stores oldDirName with
          | some _ => aset sm.stores oldDirName newDirName
          | none => sm.stores
        let l2d := aset (aerase sm.labelToDir oldLabel) newLabel newDirName
        let stores2 :=
          match alookup stores1 oldDirName with
          | some v => aset (aerase stores1 oldDirName) newDirName v
          | none => stores1
        let ci := sm.cardIndex.map (fun p =>
          if p.2 = oldDirName then (p.1, newDirName) else p)
        let disk3 := diskRenameMeta disk2 newDirName newLabel newDirName
        some (true,
          { labelToDir := l2d, stores := stores2,
            cardIndex := ci, disk := disk3 })

/-! ## Age-based cleanup (`_parse_age`, `clean_studies`, study_manager.py) -/

/-- Numeric value of a digit run. -/
def digitsToNat (l : List Char) : Nat :=
  l.foldl (fun n c => 10 * n + (c.val.toNat - 48)) 0

/-- Seconds-per-unit multiplier for the age suffix, case-insensitive;
an empty suffix means seconds. -/
def unitMul (u : Char) : Option ℚ :=
  if u.toLower = 'd' then some 86400
  else if u.toLower = 'h' then some 3600
  else if u.toLower = 'm' then some 60
  else if u.toLower = 's' then some 1
  else none

/-- Finish parsing an age string after its numeric part: optional
whitespace, then an optional unit letter, then end of string. -/
def parseAgeTail (v : ℚ) (r : List Char) : Option ℚ :=
  match r.dropWhile pyIsSpace with
  | [] => some v
  | [u] => (unitMul u).map (fun m => v * m)
  | _ => none

/-- Embedding of `_parse_age`: the regex
`^(\d+(?:\.\d+)?)\s*([dhms]?)$` (case-insensitive) applied to the stripped
input, returning seconds; `none` models the `ValueError` on no match. -/
def parse_age (ageStr : String) : Option ℚ :=
  let l := pyStrip ageStr.data
  let ip := l.takeWhile Char.isDigit
  let r1 := l.dropWhile Char.isDigit
  if ip.isEmpty then none
  else
    match r1 with
    | '.' :: r =>
      let fd := r.takeWhile Char.isDigit
      if fd.isEmpty then none
      else parseAgeTail ((digitsToNat ip : ℚ) +
        (digitsToNat fd : ℚ) / ((10 : ℚ) ^ fd.length))
        (r.dropWhile Char.isDigit)
    | r => parseAgeTail (digitsToNat ip) r

/-- The `start_time` a study presents to `clean_studies`: read through the
directory and its `meta.json`; a missing directory, missing or corrupt
meta all leave `start_time` as `None`. -/
def studyStart (sm : SMState) (dirName : String) : StartVal :=
  match alookup sm.disk dirName with
  | some sd =>
    match sd.meta with
    | some (MetaFile.json _ st) => st
    | _ => StartVal.missing
  | none => StartVal.missing

/-- The skip test of `clean_studies`: a study survives exactly when its
`start_time` is truthy, parses, and `now - ts < max_age_secs`. -/
def keepStudy (now maxAge : ℚ) (sv : StartVal) : Bool :=
  match sv with
  | StartVal.ok ts => decide (now - ts < maxAge)
  | _ => false

/-- The loop body of `clean_studies` over the snapshot of labels. A label
no longer in the mapping cannot occur for distinct labels (the loop only
deletes the label it is processing); the branch is the KeyError Python
would raise and is modelled as a skip. -/
def cleanLoop (now maxAge : ℚ) :
    List String → SMState → Nat → Nat × SMState
  | [], sm, removed => (removed, sm)
  | label :: rest, sm, removed =>
    match alookup sm.labelToDir label with
    | none => cleanLoop now maxAge rest sm removed
    | some dirName =>
      if keepStudy now maxAge (studyStart sm dirName) then
        cleanLoop now maxAge rest sm removed
      else
        let r := delete_study sm label
        cleanLoop now maxAge rest r.2 (removed + (if r.1 then 1 else 0))

/-- Embedding of `StudyManager.clean_studies`: parse the age (`none`
models the propagated `ValueError`), then walk the snapshot of labels,
deleting every study that fails the skip test and counting deletions. -/
def clean_studies (now : ℚ) (sm : SMState) (olderThan : String) :
    Option (Nat × SMState) :=
  match parse_age olderThan with
  | none => none
  | some maxAge => some (cleanLoop now maxAge (sm.labelToDir.map Prod.fst) sm 0)

/-! ## Study loading, dispatch reconciliation (study_manager.py,
dispatch.py) -/

/-- Timestamp-derived data consumed when a study must be created or
reloaded: the auto label used for `study=None`, the
`_make_study_dir_name` output, the `meta.json` written by
`get_or_create_study`, and the session meta `ArtifactStore.__init__`
writes when `meta.json` is missing. -/
structure FreshStudy where
  autoLabel : String
  dirName : String
  newMeta : MetaFile
  sessionMeta : MetaFile

/-- `StudyManager._load_study`: point a store at the directory and index
its cards; `ArtifactStore.__init__` re-creates missing files. -/
def loadStudy (sm : SMState) (dirName : String) (sessionMeta : MetaFile) :
    SMState :=
  let sd :=
    match alookup sm.disk dirName with
    | some sd => if sd.meta.isSome then sd else { sd with meta := some sessionMeta }
    | none => { index := [], meta := some sessionMeta }
  let ci := sd.index.foldl (fun m d => aset m (cardIdD d) dirName) sm.cardIndex
  { sm with disk := aset sm.disk dirName sd,
            stores := aset sm.stores dirName dirName,
            cardIndex := ci }

/-- Embedding of `StudyManager.get_or_create_study`: an existing label
returns its store (reloading it if evicted); otherwise a new study
directory is created with a fresh name and meta. Returns
`(label, store key, new state)`. -/
def get_or_create_study (sm : SMState) (study : Option String)
    (fresh : FreshStudy) : String × String × SMState :=
  let label := study.getD fresh.autoLabel
  match alookup sm.labelToDir label with
  | some dirName =>
    if (alookup sm.stores dirName).isSome then (label, dirName, sm)
    else (label, dirName, loadStudy sm dirName fresh.sessionMeta)
  | none =>
    let dirName := fresh.dirName
    let sd : StudyDir := { index := [], meta := some fresh.newMeta }
    (label, dirName,
      { sm with disk := aset sm.disk dirName sd,
                stores := aset sm.stores dirName dirName,
                labelToDir := aset sm.labelToDir label dirName })

/-- `ArtifactStore.update_card` invoked through a store key of the study
manager: rewrite that store's `index.json` on a hit, leave everything
unchanged on a miss. -/
def storeUpdateCard (sm : SMState) (storeKey cid : String)
    (changes : List (String × JVal)) : SMState :=
  match alookup sm.stores storeKey with
  | none => sm
  | some ptr =>
    match alookup sm.disk ptr with
    | none => sm
    | some sd =>
      let r := update_card sd.index cid changes
      if r.2.2 then
        { sm with disk := aset sm.disk ptr { sd with index := r.2.1 } }
      else sm

/-- First record of an index matching a card id, exactly as
`update_card`'s scan matches (`d["card_id"] == card_id`). -/
def findCard (index : List CardRec) (cid : String) : Option CardRec :=
  index.find? (fun d => alookup d "card_id" == some (JVal.s cid))

/-- Well-placement of a card record inside a study-manager state: its
`study` label is registered, the study's store is loaded and points at its
own directory, and the first index record carrying the card's id is the
record itself. Every state the study manager itself builds satisfies
this. -/
def wfCard (sm : SMState) (c : CardRec) : Bool :=
  match cardStudy c with
  | none => false
  | some label =>
    match alookup sm.labelToDir label with
    | none => false
    | some dir =>
      match alookup sm.stores dir with
      | none => false
      | some ptr =>
        if ptr != dir then false
        else
          match alookup sm.disk dir with
          | none => false
          | some sd => findCard sd.index (cardIdD c) == some c

/-- The orphan test of `reconcile_orphaned_agents` on one card: an AGENT
card whose status is `"running"` with no live dispatch. -/
def orphanB (dispatchKeys : List String) (d : CardRec) : Bool :=
  (card_typeD d == some "agent") && (previewStatus d == PVal.s "running")
    && !(dispatchKeys.contains (cardIdD d))

/-- Whether `clean_studies` deletes a given label, judged on the starting
state: the label resolves and its study fails the skip test. -/
def shouldDeleteB (now maxAge : ℚ) (sm : SMState) (label : String) : Bool :=
  match alookup sm.labelToDir label with
  | some dir => !keepStudy now maxAge (studyStart sm dir)
  | none => false

/-- The preview rewrite `reconcile_orphaned_agents` applies to an orphaned
running agent card. -/
def orphanUpdatePreview (p : List (String × PVal)) : List (String × PVal) :=
  aset (aset p "status" (PVal.s "failed"))
    "error" (PVal.s "Server restarted while agent was running")

/-- The loop of `reconcile_orphaned_agents` over the snapshot of all
cards: skip non-AGENT cards, skip cards whose status is not `"running"`,
skip cards with a live dispatch; force-update the rest. -/
def reconcileLoop (dispatchKeys : List String) (fresh : Nat → FreshStudy) :
    List CardRec → SMState → Nat → Nat → SMState × Nat
  | [], sm, _, fixed => (sm, fixed)
  | d :: rest, sm, n, fixed =>
    if card_typeD d ≠ some "agent" then
      reconcileLoop dispatchKeys fresh rest sm n fixed
    else if previewStatus d ≠ PVal.s "running" then
      reconcileLoop dispatchKeys fresh rest sm n fixed
    else if dispatchKeys.contains (cardIdD d) then
      reconcileLoop dispatchKeys fresh rest sm n fixed
    else
      let np := orphanUpdatePreview ((cardPreview d).getD [])
      let r := get_or_create_study sm (cardStudy d) (fresh n)
      let sm1 := storeUpdateCard r.2.2 r.2.1 (cardIdD d)
        [("preview", JVal.pdict np)]
      reconcileLoop dispatchKeys fresh rest sm1 (n + 1) (fixed + 1)

/-- Embedding of `reconcile_orphaned_agents` (dispatch.py), run from
`DisplayServer.__init__` at startup with the dispatch table
(`server._dispatches`) as `dispatchKeys`. -/
def reconcile_orphaned_agents (sm : SMState) (dispatchKeys : List String)
    (fresh : Nat → FreshStudy) : SMState × Nat :=
  reconcileLoop dispatchKeys fresh (list_all_cards sm none) sm 0 0

/-! ## WebSocket replay (`DisplayServer._ws_endpoint`, server.py) -/

/-- Messages the replay phase of `_ws_endpoint` sends to a fresh client. -/
inductive Msg where
  | add (card : CardRec)
  | replayDone
  deriving DecidableEq, Repr

/-- Embedding of the replay phase of `_ws_endpoint`: every card from
`list_all_cards()` (study-manager mode) or `store.list_cards()`
(single-store mode) is sent as a `display.add`, then one
`display.replay_done`. No `deleted` filter is applied. -/
def wsReplay (sm : Option SMState) (storeIndex : Option (List CardRec)) :
    List Msg :=
  let cards :=
    match sm with
    | some m => list_all_cards m none
    | none =>
      match storeIndex with
      | some idx => list_cards idx none
      | none => []
  cards.map Msg.add ++ [Msg.replayDone]

/-! ## Search sanitization (`_sanitize_search`, `_build_search_where`,
artifacts.py) -/

/-- The regex word class `\w` (ASCII model): alphanumerics and
underscore. -/
def isWordChar (c : Char) : Bool := c.isAlphanum || c = '_'

/-- The SQL keywords rejected by `_sanitize_search`, lowercased for the
case-insensitive match. -/
def sqlKeywords : List (List Char) :=
  ["drop".data, "delete".data, "insert".data, "update".data,
   "alter".data, "create".data, "exec".data, "union".data]

/-- Match one keyword at the head of the input, case-insensitively,
requiring a word boundary (non-word character or end of input) right
after it. -/
def kwAt : List Char → List Char → Bool
  | [], [] => true
  | [], c :: _ => !isWordChar c
  | _ :: _, [] => false
  | k :: kr, c :: cr => (c.toLower = k) && kwAt kr cr

/-- Scan for a word-bounded keyword occurrence, tracking whether the
previous character was a word character (the left `\b`); every keyword
starts with a letter, so the left boundary is exactly `!prevWord`. -/
def kwScan (prevWord : Bool) : List Char → Bool
  | [] => false
  | c :: rest =>
    (!prevWord && sqlKeywords.any (fun kw => kwAt kw (c :: rest)))
      || kwScan (isWordChar c) rest

/-- The keyword test `sql_keywords.search(s)` of `_sanitize_search`:
`\b(DROP|DELETE|INSERT|UPDATE|ALTER|CREATE|EXEC|UNION)\b`,
case-insensitive. -/
def containsSqlKeyword (l : List Char) : Bool := kwScan false l

/-- Python's `needle in s` substring test. -/
def hasSub (needle : List Char) : List Char → Bool
  | [] => needle.isEmpty
  | c :: rest => needle.isPrefixOf (c :: rest) || hasSub needle rest

/-- The allowed character class `[\w\s.,\-:/'\"()]` of
`_sanitize_search`'s final regex. -/
def inSearchClass (c : Char) : Bool :=
  isWordChar c || pyIsSpace c || c = '.' || c = ',' || c = '-' ||
    c = ':' || c = '/' || c = '\'' || c = '"' || c = '(' || c = ')'

/-- Embedding of `ArtifactStore._sanitize_search`: reject empty or
whitespace-only input, word-bounded SQL keywords, `--`, `;`, and any
character outside the allowed class; otherwise return the stripped
string. -/
def _sanitize_search (search : String) : Option String :=
  if (pyStrip search.data).isEmpty then none
  else
    let s := pyStrip search.data
    if containsSqlKeyword s then none
    else if hasSub ['-', '-'] s || hasSub [';'] s then none
    else if !(s.all inSearchClass) then none
    else some (String.mk s)

/-- Python `str.replace` for a single-character pattern. -/
def pyReplaceChar (pat : Char) (rep : List Char) (l : List Char) :
    List Char :=
  l.flatMap (fun c => if c = pat then rep else [c])

/-- The escaping `_build_search_where` applies before interpolation:
`escaped = search.replace("\\","\\\\").replace("%","\\%")
.replace("_","\\_")` then `escaped.replace("'","''")`. -/
def escapeSearch (l : List Char) : List Char :=
  pyReplaceChar '\'' ['\'', '\'']
    (pyReplaceChar '_' ['\\', '_']
      (pyReplaceChar '%' ['\\', '%']
        (pyReplaceChar '\\' ['\\', '\\'] l)))

/-- Per-character effect of the four sequential replaces of
`escapeSearch`. -/
def escChar (c : Char) : List Char :=
  if c = '\\' then ['\\', '\\']
  else if c = '%' then ['\\', '%']
  else if c = '_' then ['\\', '_']
  else if c = '\'' then ['\'', '\'']
  else [c]

/-- Every `%` or `_` in the text is escaped by a backslash, and no
trailing lone backslash remains: the ILIKE wildcards are inert under the
`ESCAPE` clause. -/
def wildEsc : List Char → Bool
  | [] => true
  | c :: rest =>
    if c = '\\' then
      match rest with
      | [] => false
      | _ :: rest' => wildEsc rest'
    else if c = '%' then false
    else if c = '_' then false
    else wildEsc rest

/-- Every single quote in the text comes as a doubled pair: the text
cannot terminate the SQL string literal. -/
def quotesDoubled : List Char → Bool
  | [] => true
  | c :: rest =>
    if c = '\'' then
      match rest with
      | [] => false
      | d :: rest' => if d = '\'' then quotesDoubled rest' else false
    else quotesDoubled rest

/-- One column's clause in `_build_search_where`: text-typed columns get
`"col" ILIKE '%…%' ESCAPE '\'`, the rest are cast to VARCHAR first. -/
def searchClause (escaped : List Char) (col : String × String) : String :=
  (if ["VARCHAR", "UTF8", "STRING", "TEXT"].any
      (fun t => hasSub t.data (col.2.data.map Char.toUpper))
   then "\"" ++ col.1 ++ "\" ILIKE '%"
   else "CAST(\"" ++ col.1 ++ "\" AS VARCHAR) ILIKE '%")
    ++ String.mk escaped ++ "%' ESCAPE '\\'"

/-- Embedding of `ArtifactStore._build_search_where`: escape the
sanitized search text, build one ILIKE clause per column, and join them
under a single `WHERE` (empty when there are no columns). -/
def _build_search_where (search : String)
    (colInfo : List (String × String)) : String :=
  let clauses := colInfo.map (searchClause (escapeSearch search.data))
  if clauses.isEmpty then ""
  else " WHERE " ++ String.intercalate " OR " clauses

/-- The WHERE-clause selection of `ArtifactStore.read_table_page`:
`sanitized = self._sanitize_search(search) if search else None`, then
`where = self._build_search_where(sanitized, col_info) if sanitized
else ""`. -/
def readTablePageWhere (search : Option String)
    (colInfo : List (String × String)) : String :=
  let sanitized :=
    match search with
    | some s => if s.data.isEmpty then none else _sanitize_search s
    | none => none
  match sanitized with
  | some s => if s.data.isEmpty then "" else _build_search_where s colInfo
  | none => ""

/-! ## SVG sanitization (`_sanitize_svg`, renderer.py) -/

/-- Case-insensitive literal match at the head of the input; the pattern
is given lowercase. -/
def ciPrefix : List Char → List Char → Bool
  | [], _ => true
  | _ :: _, [] => false
  | p :: pr, c :: cr => (c.toLower = p) && ciPrefix pr cr

/-- Lazy completion `.*?</script>` (DOTALL, case-insensitive): the number
of characters up to and including the earliest closing tag, `none` when
no close follows. -/
def findClose : List Char → Option Nat
  | [] => none
  | c :: rest =>
    if ciPrefix "</script>".data (c :: rest) then some 9
    else (findClose rest).map (· + 1)

/-- Match length of `_SCRIPT_TAG_RE` (`<script[\s>].*?</script>`,
IGNORECASE, DOTALL) at the head of the input; `none` when the regex
cannot match here — in particular when no closing `</script>` exists. -/
def scriptMatchLen (l : List Char) : Option Nat :=
  if ciPrefix "<script".data l then
    match l.drop 7 with
    | [] => none
    | c :: rest =>
      if pyIsSpace c || c = '>' then (findClose rest).map (fun n => 8 + n)
      else none
  else none

/-- The scan of `re.sub`: at each position try the match; on a hit drop
the matched span and continue after it, otherwise keep the character.
Fuel is the input length (every step consumes at least one character). -/
def scriptStripF : Nat → List Char → List Char
  | 0, _ => []
  | _ + 1, [] => []
  | fuel + 1, c :: rest =>
    match scriptMatchLen (c :: rest) with
    | some n => scriptStripF fuel ((c :: rest).drop n)
    | none => c :: scriptStripF fuel rest

/-- `_SCRIPT_TAG_RE.sub("", text)`. -/
def scriptStrip (l : List Char) : List Char := scriptStripF l.length l

/-- Tail of the javascript-href pattern after the `href` keyword:
`\s*=\s*["\']javascript:[^"\']*["\']` (the closing quote need not match
the opening one, exactly as in the regex's character classes). -/
def hrefTail (l : List Char) : Option Nat :=
  let l1 := l.dropWhile pyIsSpace
  let n1 := l.length - l1.length
  match l1 with
  | '=' :: l2 =>
    let l3 := l2.dropWhile pyIsSpace
    let n3 := l2.length - l3.length
    match l3 with
    | q :: l4 =>
      if q = '"' || q = '\'' then
        if ciPrefix "javascript:".data l4 then
          let body := (l4.drop 11).takeWhile
            (fun c => !(c = '"' || c = '\''))
          match (l4.drop 11).drop body.length with
          | _ :: _ => some (n1 + 1 + n3 + 1 + 11 + body.length + 1)
          | [] => none
        else none
      else none
    | [] => none
  | _ => none

/-- Match length of `\b(xlink:)?href\s*=\s*["\']javascript:[^"\']*["\']`
(IGNORECASE) at the head; the left word boundary is checked by the
caller. -/
def hrefMatchLen (l : List Char) : Option Nat :=
  if ciPrefix "xlink:href".data l then
    (hrefTail (l.drop 10)).map (fun n => 10 + n)
  else if ciPrefix "href".data l then
    (hrefTail (l.drop 4)).map (fun n => 4 + n)
  else none

/-- The scan of the javascript-href substitution, tracking whether the
previous character is a word character (for `\b`). A match ends on a
quote, so the flag resets to false after a hit. -/
def hrefStripF : Nat → Bool → List Char → List Char
  | 0, _, _ => []
  | _ + 1, _, [] => []
  | fuel + 1, prevWord, c :: rest =>
    match (if prevWord then none else hrefMatchLen (c :: rest)) with
    | some n => hrefStripF fuel false ((c :: rest).drop n)
    | none => c :: hrefStripF fuel (isWordChar c) rest

/-- The `javascript:`-URI substitution pass of `_sanitize_svg`. -/
def hrefStrip (l : List Char) : List Char := hrefStripF l.length false l

/-- Match length of `\s+on\w+\s*=\s*"[^"]*"` (or the single-quote
variant; both case-sensitive, as written in `_sanitize_svg`) at the head
of the input. -/
def onAttrMatchLen (quote : Char) (l : List Char) : Option Nat :=
  let ws1 := l.takeWhile pyIsSpace
  if ws1.isEmpty then none
  else
    match l.drop ws1.length with
    | 'o' :: 'n' :: l2 =>
      let w := l2.takeWhile isWordChar
      if w.isEmpty then none
      else
        let l3 := l2.drop w.length
        let ws2 := l3.takeWhile pyIsSpace
        match l3.drop ws2.length with
        | '=' :: l5 =>
          let ws3 := l5.takeWhile pyIsSpace
          match l5.drop ws3.length with
          | q :: l7 =>
            if q = quote then
              let body := l7.takeWhile (fun c => !(c = quote))
              match l7.drop body.length with
              | _ :: _ => some (ws1.length + 2 + w.length + ws2.length
                  + 1 + ws3.length + 1 + body.length + 1)
              | [] => none
            else none
          | [] => none
        | _ => none
    | _ => none

/-- The scan of one `onXxx` substitution pass. -/
def onStripF (quote : Char) : Nat → List Char → List Char
  | 0, _ => []
  | _ + 1, [] => []
  | fuel + 1, c :: rest =>
    match onAttrMatchLen quote (c :: rest) with
    | some n => onStripF quote fuel ((c :: rest).drop n)
    | none => c :: onStripF quote fuel rest

/-- One `onXxx` event-attribute substitution pass of `_sanitize_svg`. -/
def onStrip (quote : Char) (l : List Char) : List Char :=
  onStripF quote l.length l

/-- UTF-8 byte length of the re-encoded text (`text.encode("utf-8")`). -/
def utf8Len (l : List Char) : Nat := (l.map Char.utf8Size).sum

/-- The 2 MB ceiling `_MAX_SVG_BYTES`. -/
def _MAX_SVG_BYTES : Nat := 2 * 1024 * 1024

/-- The cleaned text of `_sanitize_svg`: the script-tag pass, the
javascript-href pass, then the two `onXxx` passes, in source order. -/
def cleanSvg (l : List Char) : List Char :=
  onStrip '\'' (onStrip '"' (hrefStrip (scriptStrip l)))

/-- Embedding of `_sanitize_svg` (renderer.py) on the decoded text
(`svg_bytes.decode("utf-8", errors="replace")`): the cleaned text, or a
`ValueError` when its UTF-8 encoding exceeds the 2 MB ceiling. -/
def _sanitize_svg (l : List Char) : Except String (List Char) :=
  let t := cleanSvg l
  if utf8Len t > _MAX_SVG_BYTES then
    Except.error "SVG exceeds size limit"
  else Except.ok t

/-! ## Blocking-response protocol (`wait_for_response` /
`_handle_ws_event`, server.py) -/

/-- Lookup in a Nat-keyed association list (futures and waiters). -/
def nlookup {α : Type} (l : List (Nat × α)) (k : Nat) : Option α :=
  match l with
  | [] => none
  | (k', v) :: rest => if k' = k then some v else nlookup rest k

/-- Set a key in a Nat-keyed association list. -/
def nset {α : Type} (l : List (Nat × α)) (k : Nat) (v : α) :
    List (Nat × α) :=
  match l with
  | [] => [(k, v)]
  | (k', v') :: rest =>
    if k' = k then (k, v) :: rest else (k', v') :: nset rest k v

/-- The payload of a browser `response` event as read by
`_handle_ws_event`: `action` is `payload.get("action", "confirm")`
(`none` = key absent, so the default applies), the three truthiness
flags stand for `bool(selected_rows)` / `bool(columns)` /
`bool(points)`, `formValues` is `payload.get("form_values", {})`, and
`summary` carries the value `_build_summary` computes for this event. -/
structure RespPayload where
  action : Option String
  message : JVal
  selectedRowsTruthy : Bool
  columnsTruthy : Bool
  pointsTruthy : Bool
  formValues : List (String × PVal)
  summary : JVal

/-- The result dict the `response` branch of `_handle_ws_event` builds:
`artifact_id` is `"resp-" + card_id` exactly when `selected_rows and
columns` or `points` is truthy, else `None`. -/
def mkResult (cid : String) (p : RespPayload) : CardRec :=
  [("action", JVal.s (p.action.getD "confirm")),
   ("card_id", JVal.s cid),
   ("message", p.message),
   ("artifact_id",
     if (p.selectedRowsTruthy && p.columnsTruthy) || p.pointsTruthy
     then JVal.s (String.append "resp-" cid) else JVal.null),
   ("summary", p.summary),
   ("values", JVal.pdict p.formValues)]

/-- The dict `wait_for_response` returns on `asyncio.TimeoutError`. -/
def timeoutResult (cid : String) : CardRec :=
  [("action", JVal.s "timeout"), ("card_id", JVal.s cid)]

/-- Life cycle of an `asyncio.Future` created by `wait_for_response`:
`future.done()` is true in the `resolved` and `cancelled` states. -/
inductive FutSt where
  | pending
  | resolved (r : CardRec)
  | cancelled
deriving DecidableEq

/-- Program location of one `wait_for_response` call: blocked awaiting
its future, or returned with a result dict. -/
inductive WaiterPh where
  | waiting (cid : String) (fid : Nat)
  | done (ret : CardRec)
deriving DecidableEq

/-- The server state relevant to the blocking-response protocol:
`_pending_responses` (card id → installed future id), every created
future with its state, each waiter's program location, and a
fresh-future counter. -/
structure SrvSt where
  pendingResponses : List (String × Nat)
  futures : List (Nat × FutSt)
  waiters : List (Nat × WaiterPh)
  nextF : Nat

/-- Entry of `wait_for_response(card_id, timeout)`: create a fresh
pending future and install it in `_pending_responses[card_id]`,
replacing any prior entry for that card id. -/
def startPost (s : SrvSt) (w : Nat) (cid : String) : SrvSt :=
  ⟨aset s.pendingResponses cid s.nextF,
   nset s.futures s.nextF FutSt.pending,
   nset s.waiters w (WaiterPh.waiting cid s.nextF),
   s.nextF + 1⟩

/-- The `response` branch of `_handle_ws_event` when
`_pending_responses` holds a not-yet-done future for the card: resolve
exactly that future with the result dict. -/
def respondPost (s : SrvSt) (cid : String) (p : RespPayload) (fid : Nat) :
    SrvSt :=
  ⟨s.pendingResponses,
   nset s.futures fid (FutSt.resolved (mkResult cid p)),
   s.waiters, s.nextF⟩

/-- Exit of `wait_for_response` with a resolved future: return its
result; the `finally` block pops the card's entry unconditionally. -/
def finishPost (s : SrvSt) (w : Nat) (cid : String) (r : CardRec) :
    SrvSt :=
  ⟨aerase s.pendingResponses cid, s.futures,
   nset s.waiters w (WaiterPh.done r), s.nextF⟩

/-- Exit of `wait_for_response` on an elapsed deadline:
`asyncio.wait_for` cancels the still-pending future, the except branch
returns the timeout dict, and the `finally` block pops the card's
entry. -/
def timeoutPost (s : SrvSt) (w : Nat) (cid : String) (fid : Nat) : SrvSt :=
  ⟨aerase s.pendingResponses cid,
   nset s.futures fid FutSt.cancelled,
   nset s.waiters w (WaiterPh.done (timeoutResult cid)),
   s.nextF⟩

/-- Interleaving semantics of concurrent `wait_for_response` calls and
browser `response` events. A `response` event for a card with no
installed entry, or whose future is already done, changes nothing
(`if future and not future.done()`). -/
inductive Step : SrvSt → SrvSt → Prop where
  | start (s : SrvSt) (w : Nat) (cid : String)
      (hw : nlookup s.waiters w = none) : Step s (startPost s w cid)
  | respondHit (s : SrvSt) (cid : String) (p : RespPayload) (fid : Nat)
      (hf : alookup s.pendingResponses cid = some fid)
      (hp : nlookup s.futures fid = some FutSt.pending) :
      Step s (respondPost s cid p fid)
  | respondMiss (s : SrvSt) (cid : String) (p : RespPayload)
      (h : ∀ fid, alookup s.pendingResponses cid = some fid →
        nlookup s.futures fid ≠ some FutSt.pending) : Step s s
  | finish (s : SrvSt) (w : Nat) (cid : String) (fid : Nat) (r : CardRec)
      (hw : nlookup s.waiters w = some (WaiterPh.waiting cid fid))
      (hr : nlookup s.futures fid = some (FutSt.resolved r)) :
      Step s (finishPost s w cid r)
  | timeout (s : SrvSt) (w : Nat) (cid : String) (fid : Nat)
      (hw : nlookup s.waiters w = some (WaiterPh.waiting cid fid))
      (hp : nlookup s.futures fid = some FutSt.pending) :
      Step s (timeoutPost s w cid fid)

/-! # Theorems -/

/-! ## Association-list lemmas -/

theorem alookup_aset_self {α : Type} (l : List (String × α)) (k : String)
    (v : α) : alookup (aset l k v) k = some v := by
  induction l with
  | nil => simp [aset, alookup]
  | cons hd tl ih =>
    obtain ⟨k', v'⟩ := hd
    by_cases h : k' = k
    · simp [aset, alookup, h]
    · simp [aset, alookup, h, ih]

theorem alookup_aset_ne {α : Type} (l : List (String × α)) (k k' : String)
    (v : α) (hne : k ≠ k') : alookup (aset l k v) k' = alookup l k' := by
  induction l with
  | nil => simp [aset, alookup, hne]
  | cons hd tl ih =>
    obtain ⟨k0, v0⟩ := hd
    by_cases h : k0 = k
    · subst h
      simp [aset, alookup, hne]
    · simp [aset, alookup, h, ih]

theorem alookup_aerase_self {α : Type} (l : List (String × α)) (k : String)
    (hnd : (l.map Prod.fst).Nodup) : alookup (aerase l k) k = none := by
  induction l with
  | nil => simp [aerase, alookup]
  | cons hd tl ih =>
    obtain ⟨k0, v0⟩ := hd
    simp only [List.map_cons, List.nodup_cons] at hnd
    by_cases h : k0 = k
    · subst h
      simp only [aerase, if_pos rfl]
      clear ih
      induction tl with
      | nil => simp [alookup]
      | cons hd' tl' ih' =>
        obtain ⟨k1, v1⟩ := hd'
        simp only [List.map_cons, List.mem_cons, List.nodup_cons] at hnd
        have hk1 : k1 ≠ k0 := fun h => hnd.1 (Or.inl h.symm)
        simp only [alookup, if_neg hk1]
        exact ih' ⟨fun hm => hnd.1 (Or.inr hm), hnd.2.2⟩
    · simp [aerase, alookup, h, ih hnd.2]

theorem alookup_aerase_ne {α : Type} (l : List (String × α)) (k k' : String)
    (hne : k ≠ k') : alookup (aerase l k) k' = alookup l k' := by
  induction l with
  | nil => simp [aerase, alookup]
  | cons hd tl ih =>
    obtain ⟨k0, v0⟩ := hd
    by_cases h : k0 = k
    · subst h
      simp [aerase, alookup, hne]
    · simp [aerase, alookup, h, ih]

/-! ## C8: PID file removal -/

/-- C8: at shutdown `_remove_pid_file` unlinks the PID file only when the
pid recorded in it equals the calling process's own pid; whenever the
recorded pid differs (or the file is unreadable), the file's contents and
existence are left unchanged. -/
theorem c8_remove_pid_file_guarded (ownPid : Int) (st : PidSt) :
    (st.file ≠ PidFile.parsed (some ownPid) →
      (remove_pid_file ownPid st).file = st.file) ∧
    ((remove_pid_file ownPid st).file = PidFile.absent →
      st.file = PidFile.parsed (some ownPid) ∨ st.file = PidFile.absent) := by
  obtain ⟨path, file⟩ := st
  constructor
  · intro hne
    cases file with
    | absent => simp [remove_pid_file]
    | unreadable =>
      by_cases hp : path <;> simp [remove_pid_file, hp]
    | parsed p =>
      have hp' : p ≠ some ownPid := by
        intro h
        exact hne (by simp [h])
      by_cases hp : path <;> simp [remove_pid_file, hp, hp']
  · intro habs
    cases file with
    | absent => exact Or.inr rfl
    | unreadable =>
      exfalso
      by_cases hp : path <;> simp [remove_pid_file, hp] at habs
    | parsed p =>
      by_cases hp : path
      · by_cases hpid : p = some ownPid
        · exact Or.inl (by simp [hpid])
        · exfalso
          simp [remove_pid_file, hp, hpid] at habs
      · exfalso
        simp [remove_pid_file, hp] at habs

/-- Witness for C8 at a concrete state: a PID file recording pid 42 is left
in place by a process whose own pid is 7. -/
theorem c8_remove_pid_file_guarded_witness :
    (remove_pid_file 7 ⟨true, PidFile.parsed (some 42)⟩).file
      = PidFile.parsed (some 42) :=
  (c8_remove_pid_file_guarded 7 ⟨true, PidFile.parsed (some 42)⟩).1
    (by decide)

/-! ## C9: `update_card` miss is a no-op, hit rewrites the index -/

/-- C9: `update_card` on a card id matching no record returns `None` and
does not write the index (state unchanged on error); when a record matches,
exactly the first matching record is merged with the changes and the whole
index is rewritten with that one record replaced. -/
theorem c9_update_card_atomic (index : List CardRec) (cid : String)
    (changes : List (String × JVal)) :
    ((∀ d ∈ index, alookup d "card_id" ≠ some (JVal.s cid)) →
      update_card index cid changes = (none, index, false)) ∧
    (∀ pre d post,
      index = pre ++ d :: post →
      (∀ d' ∈ pre, alookup d' "card_id" ≠ some (JVal.s cid)) →
      alookup d "card_id" = some (JVal.s cid) →
      update_card index cid changes =
        (some (mergeChanges d changes),
         pre ++ mergeChanges d changes :: post, true)) := by
  constructor
  · intro hmiss
    induction index with
    | nil => simp [update_card]
    | cons d rest ih =>
      have hd := hmiss d (List.mem_cons_self d rest)
      have hrest := fun d' hm => hmiss d' (List.mem_cons_of_mem d hm)
      simp [update_card, hd, ih hrest]
  · intro pre d post hidx hpre hd
    subst hidx
    induction pre with
    | nil => simp [update_card, hd]
    | cons p rest ih =>
      have hp := hpre p (List.mem_cons_self p rest)
      have hrest := fun d' hm => hpre d' (List.mem_cons_of_mem p hm)
      simp [update_card, hp, ih hrest]

/-- Witness for C9 at a concrete index: a miss leaves the two-record index
untouched and unwritten; a hit on the second record merges the change into
it alone and rewrites. -/
theorem c9_update_card_atomic_witness :
    update_card [[("card_id", JVal.s "a")], [("card_id", JVal.s "b")]]
        "zz" [("title", JVal.s "t")]
      = (none, [[("card_id", JVal.s "a")], [("card_id", JVal.s "b")]], false) ∧
    update_card [[("card_id", JVal.s "a")], [("card_id", JVal.s "b")]]
        "b" [("title", JVal.s "t")]
      = (some [("card_id", JVal.s "b"), ("title", JVal.s "t")],
         [[("card_id", JVal.s "a")],
          [("card_id", JVal.s "b"), ("title", JVal.s "t")]], true) := by
  constructor
  · exact (c9_update_card_atomic
      [[("card_id", JVal.s "a")], [("card_id", JVal.s "b")]]
      "zz" [("title", JVal.s "t")]).1 (by decide)
  · have h := (c9_update_card_atomic
      [[("card_id", JVal.s "a")], [("card_id", JVal.s "b")]]
      "b" [("title", JVal.s "t")]).2
      [[("card_id", JVal.s "a")]] [("card_id", JVal.s "b")] []
      rfl (by decide) (by decide)
    exact h.trans (by decide)

/-! ## C7: paging limit clamping -/

/-- C7 counterexample: a direct call to `read_table_page` with
`limit = -5` interpolates `-5` into the SQL paging tail; the limit is not
clamped into `[1, 10000]` by `read_table_page` itself, contradicting the
claim that every call to it has its limit clamped before reaching SQL. -/
theorem c7_read_table_page_no_clamp_counterexample :
    readTablePageTail (-5) 0 = " LIMIT -5 OFFSET 0" ∧
    readTablePageTail (-5) 0 ≠ readTablePageTail (apiLimit (-5)) (apiOffset 0) := by
  constructor
  · rfl
  · decide

/-- C7 (amended): the clamping lives in `DisplayServer._api_table`, which
clamps the requested limit into `[1, 10000]` (below 1 becomes 1, above
10000 becomes 10000) and the offset to at least 0 before calling
`read_table_page`; the SQL paging tail produced for an HTTP request uses
exactly the clamped values. -/
theorem c7_api_table_clamps (limit offset : Int) :
    1 ≤ apiLimit limit ∧ apiLimit limit ≤ 10000 ∧
    0 ≤ apiOffset offset ∧
    (limit < 1 → apiLimit limit = 1) ∧
    (10000 < limit → apiLimit limit = 10000) ∧
    apiTableTail limit offset
      = readTablePageTail (apiLimit limit) (apiOffset offset) := by
  refine ⟨?_, ?_, ?_, ?_, ?_, rfl⟩ <;>
    simp [apiLimit, apiOffset] <;> omega

/-- Witness for C7 (amended) at concrete inputs: a requested limit of -5
reaches the SQL tail as 1, a limit of 20000 as 10000. -/
theorem c7_api_table_clamps_witness :
    apiLimit (-5) = 1 ∧ apiLimit 20000 = 10000 ∧
    apiTableTail (-5) (-3) = " LIMIT 1 OFFSET 0" := by
  refine ⟨(c7_api_table_clamps (-5) 0).2.2.2.1 (by decide),
          (c7_api_table_clamps 20000 0).2.2.2.2.1 (by decide), ?_⟩
  have h := (c7_api_table_clamps (-5) (-3)).2.2.2.2.2
  exact h.trans (by decide)

/-! ## More association-list and sorting lemmas -/

theorem aerase_sublist {α : Type} (l : List (String × α)) (k : String) :
    List.Sublist (aerase l k) l := by
  induction l with
  | nil => simp [aerase]
  | cons hd tl ih =>
    obtain ⟨k0, v0⟩ := hd
    by_cases h : k0 = k
    · simp only [aerase, if_pos h]
      exact List.sublist_cons_self _ _
    · simp only [aerase, if_neg h]
      exact ih.cons₂ (k0, v0)

theorem alookup_mem {α : Type} {l : List (String × α)} {k : String} {v : α}
    (h : alookup l k = some v) : (k, v) ∈ l := by
  induction l with
  | nil => simp [alookup] at h
  | cons hd tl ih =>
    obtain ⟨k0, v0⟩ := hd
    rw [alookup] at h
    by_cases hk : k0 = k
    · rw [if_pos hk] at h
      cases h
      subst hk
      exact List.mem_cons_self _ _
    · rw [if_neg hk] at h
      exact List.mem_cons_of_mem _ (ih h)

theorem alookup_key_mem {α : Type} {l : List (String × α)} {k : String}
    {v : α} (h : alookup l k = some v) : k ∈ l.map Prod.fst :=
  List.mem_map.mpr ⟨(k, v), alookup_mem h, rfl⟩

theorem alookup_val_ne {α : Type} {l : List (String × α)}
    (hnd : (l.map Prod.snd).Nodup) {k1 k2 : String} {v1 v2 : α}
    (h1 : alookup l k1 = some v1) (h2 : alookup l k2 = some v2)
    (hk : k1 ≠ k2) : v1 ≠ v2 := by
  intro hv
  subst hv
  have m1 := alookup_mem h1
  have m2 := alookup_mem h2
  have heq := List.inj_on_of_nodup_map hnd m1 m2 rfl
  exact hk (congrArg Prod.fst heq)

theorem stableInsert_perm {α : Type} (le : α → α → Bool) (x : α)
    (l : List α) : List.Perm (stableInsert le x l) (x :: l) := by
  induction l with
  | nil => simp [stableInsert]
  | cons y rest ih =>
    cases hxy : le x y with
    | true => simp [stableInsert, hxy]
    | false =>
      simp only [stableInsert, hxy, Bool.false_eq_true, if_false]
      exact (ih.cons y).trans (List.Perm.swap x y rest)

theorem stableSort_perm {α : Type} (le : α → α → Bool) (l : List α) :
    List.Perm (stableSort le l) l := by
  induction l with
  | nil => simp [stableSort]
  | cons x rest ih =>
    exact (stableInsert_perm le x (stableSort le rest)).trans (ih.cons x)

/-! ## C2: WebSocket replay -/

/-- C2 counterexample: a soft-deleted card (`deleted=true`) is still
replayed by `_ws_endpoint` — the replay loop applies no `deleted`
filter — contradicting the claim that only cards with `deleted=false`
are sent. -/
theorem c2_replay_deleted_counterexample :
    cardDeleted [("card_id", JVal.s "c1"), ("deleted", JVal.b true)] = true ∧
    Msg.add [("card_id", JVal.s "c1"), ("deleted", JVal.b true)] ∈
      wsReplay (some ⟨[("s", "d")], [("d", "d")], [("c1", "d")],
        [("d", ⟨[[("card_id", JVal.s "c1"), ("deleted", JVal.b true)]],
          none⟩)]⟩) none := by
  decide

/-- C2 (amended): on accept the server replays every stored card —
including soft-deleted ones — each as a `display.add`, followed by exactly
one final `display.replay_done`. -/
theorem c2_replay_all_cards (sm : SMState) :
    wsReplay (some sm) none
      = (list_all_cards sm none).map Msg.add ++ [Msg.replayDone] ∧
    (∀ d, Msg.add d ∈ wsReplay (some sm) none ↔ d ∈ gatherAll sm) ∧
    (wsReplay (some sm) none).getLast? = some Msg.replayDone ∧
    (wsReplay (some sm) none).count Msg.replayDone = 1 := by
  refine ⟨rfl, ?_, ?_, ?_⟩
  · intro d
    have hperm := stableSort_perm
      (fun a b => strLeB (cardTimestamp a) (cardTimestamp b)) (gatherAll sm)
    constructor
    · intro hm
      rcases List.mem_append.mp hm with hm | hm
      · rcases List.mem_map.mp hm with ⟨c, hc, hadd⟩
        cases hadd
        exact hperm.mem_iff.mp hc
      · simp at hm
    · intro hm
      exact List.mem_append.mpr (Or.inl (List.mem_map.mpr
        ⟨d, hperm.mem_iff.mpr hm, rfl⟩))
  · simp [wsReplay]
  · have hz : ((list_all_cards sm none).map Msg.add).count Msg.replayDone
        = 0 := by
      refine List.count_eq_zero.mpr ?_
      intro hm
      rcases List.mem_map.mp hm with ⟨c, _, hc⟩
      exact Msg.noConfusion hc
    show ((list_all_cards sm none).map Msg.add ++ [Msg.replayDone]).count
        Msg.replayDone = 1
    rw [List.count_append, hz]
    simp

/-! ## C10: `clean_studies` -/

theorem cleanLoop_none_mono (now maxAge : ℚ) (labels : List String) :
    ∀ (sm : SMState) (removed : Nat) (ℓ : String),
    alookup sm.labelToDir ℓ = none →
    alookup (cleanLoop now maxAge labels sm removed).2.labelToDir ℓ
      = none := by
  induction labels with
  | nil =>
    intro sm removed ℓ h
    simpa [cleanLoop] using h
  | cons lab rest ih =>
    intro sm removed ℓ h
    simp only [cleanLoop]
    cases hl : alookup sm.labelToDir lab with
    | none => exact ih sm removed ℓ h
    | some dir =>
      by_cases hkeep : keepStudy now maxAge (studyStart sm dir) = true
      · simp only [hkeep, if_true]
        exact ih sm removed ℓ h
      · simp only [hkeep, if_false]
        apply ih
        have hne : lab ≠ ℓ := by
          intro e
          rw [e, h] at hl
          exact Option.noConfusion hl
        simp only [delete_study, hl]
        rw [alookup_aerase_ne _ _ _ hne]
        exact h

theorem cleanLoop_sound (now maxAge : ℚ) :
    ∀ (labels : List String) (sm : SMState) (removed : Nat),
    (sm.labelToDir.map Prod.fst).Nodup →
    (sm.labelToDir.map Prod.snd).Nodup →
    labels.Nodup →
    (cleanLoop now maxAge labels sm removed).1
        = removed + (labels.filter (shouldDeleteB now maxAge sm)).length ∧
    (∀ ℓ dir, alookup sm.labelToDir ℓ = some dir →
      (ℓ ∈ labels → keepStudy now maxAge (studyStart sm dir) = false →
        alookup (cleanLoop now maxAge labels sm removed).2.labelToDir ℓ
          = none) ∧
      ((ℓ ∉ labels ∨ keepStudy now maxAge (studyStart sm dir) = true) →
        alookup (cleanLoop now maxAge labels sm removed).2.labelToDir ℓ
            = some dir ∧
        alookup (cleanLoop now maxAge labels sm removed).2.disk dir
            = alookup sm.disk dir)) := by
  intro labels
  induction labels with
  | nil =>
    intro sm removed _ _ _
    refine ⟨by simp [cleanLoop], ?_⟩
    intro ℓ dir hld
    exact ⟨fun h => absurd h (List.not_mem_nil ℓ),
           fun _ => ⟨by simpa [cleanLoop] using hld, by simp [cleanLoop]⟩⟩
  | cons lab rest ih =>
    intro sm removed hk hd hnd
    have hlabrest : lab ∉ rest := (List.nodup_cons.mp hnd).1
    have hrestnd : rest.Nodup := (List.nodup_cons.mp hnd).2
    cases hl : alookup sm.labelToDir lab with
    | none =>
      -- unreachable for snapshot labels; loop just skips
      have hstep : cleanLoop now maxAge (lab :: rest) sm removed
          = cleanLoop now maxAge rest sm removed := by
        simp [cleanLoop, hl]
      have hsd : shouldDeleteB now maxAge sm lab = false := by
        simp [shouldDeleteB, hl]
      obtain ⟨ihc, ihm⟩ := ih sm removed hk hd hrestnd
      refine ⟨by rw [hstep, ihc, List.filter_cons_of_neg (by simp [hsd])], ?_⟩
      intro ℓ dir hld
      have hne : ℓ ≠ lab := by
        intro e
        rw [e, hl] at hld
        exact Option.noConfusion hld
      obtain ⟨ih1, ih2⟩ := ihm ℓ dir hld
      constructor
      · intro hmem hnk
        rw [hstep]
        exact ih1 (by
          rcases List.mem_cons.mp hmem with h | h
          · exact absurd h hne
          · exact h) hnk
      · intro hor
        rw [hstep]
        refine ih2 ?_
        rcases hor with hnm | hkeep
        · exact Or.inl (fun h => hnm (List.mem_cons_of_mem _ h))
        · exact Or.inr hkeep
    | some dirH =>
      by_cases hkeep : keepStudy now maxAge (studyStart sm dirH) = true
      · -- kept: skip
        have hstep : cleanLoop now maxAge (lab :: rest) sm removed
            = cleanLoop now maxAge rest sm removed := by
          simp [cleanLoop, hl, hkeep]
        have hsd : shouldDeleteB now maxAge sm lab = false := by
          simp [shouldDeleteB, hl, hkeep]
        obtain ⟨ihc, ihm⟩ := ih sm removed hk hd hrestnd
        refine ⟨by rw [hstep, ihc, List.filter_cons_of_neg (by simp [hsd])],
          ?_⟩
        intro ℓ dir hld
        obtain ⟨ih1, ih2⟩ := ihm ℓ dir hld
        constructor
        · intro hmem hnk
          rcases List.mem_cons.mp hmem with h | h
          · -- ℓ = lab but lab is kept: contradiction
            subst h
            rw [hld] at hl
            cases hl
            rw [hkeep] at hnk
            exact Bool.noConfusion hnk
          · rw [hstep]
            exact ih1 h hnk
        · intro hor
          rw [hstep]
          refine ih2 ?_
          rcases hor with hnm | hkp
          · exact Or.inl (fun h => hnm (List.mem_cons_of_mem _ h))
          · exact Or.inr hkp
      · -- deleted
        have hkeep' : keepStudy now maxAge (studyStart sm dirH) = false := by
          simp only [Bool.not_eq_true] at hkeep
          exact hkeep
        have hstep : cleanLoop now maxAge (lab :: rest) sm removed
            = cleanLoop now maxAge rest (delete_study sm lab).2
                (removed + 1) := by
          simp [cleanLoop, hl, hkeep, delete_study]
        set smDel := (delete_study sm lab).2 with hsmDel
        have hDel : smDel = { labelToDir := aerase sm.labelToDir lab
                            , stores := aerase sm.stores dirH
                            , cardIndex :=
                                sm.cardIndex.filter (fun p => p.2 != dirH)
                            , disk := aerase sm.disk dirH } := by
          simp [hsmDel, delete_study, hl]
        -- lookups of other labels survive the deletion
        have hlook : ∀ ℓ, ℓ ≠ lab →
            alookup smDel.labelToDir ℓ = alookup sm.labelToDir ℓ := by
          intro ℓ hne
          rw [hDel]
          exact alookup_aerase_ne _ _ _ (fun e => hne e.symm)
        have hdirOf : ∀ ℓ dir, ℓ ≠ lab →
            alookup sm.labelToDir ℓ = some dir → dir ≠ dirH := by
          intro ℓ dir hne hld
          exact alookup_val_ne hd hld hl hne
        have hdisk : ∀ dir, dir ≠ dirH →
            alookup smDel.disk dir = alookup sm.disk dir := by
          intro dir hne
          rw [hDel]
          exact alookup_aerase_ne _ _ _ (fun e => hne e.symm)
        have hstart : ∀ dir, dir ≠ dirH →
            studyStart smDel dir = studyStart sm dir := by
          intro dir hne
          simp only [studyStart]
          rw [hdisk dir hne]
        have hWFk : (smDel.labelToDir.map Prod.fst).Nodup := by
          rw [hDel]
          exact hk.sublist ((aerase_sublist _ _).map Prod.fst)
        have hWFd : (smDel.labelToDir.map Prod.snd).Nodup := by
          rw [hDel]
          exact hd.sublist ((aerase_sublist _ _).map Prod.snd)
        obtain ⟨ihc, ihm⟩ := ih smDel (removed + 1) hWFk hWFd hrestnd
        have hfilter : rest.filter (shouldDeleteB now maxAge smDel)
            = rest.filter (shouldDeleteB now maxAge sm) := by
          apply List.filter_congr
          intro ℓ hmem
          have hne : ℓ ≠ lab := fun e => hlabrest (e ▸ hmem)
          unfold shouldDeleteB
          rw [hlook ℓ hne]
          cases hld : alookup sm.labelToDir ℓ with
          | none => rfl
          | some dir => simp [hstart dir (hdirOf ℓ dir hne hld)]
        have hsd : shouldDeleteB now maxAge sm lab = true := by
          simp [shouldDeleteB, hl, hkeep']
        refine ⟨?_, ?_⟩
        · rw [hstep, ihc, hfilter, List.filter_cons_of_pos (by simp [hsd])]
          simp only [List.length_cons]
          omega
        · intro ℓ dir hld
          by_cases hℓ : ℓ = lab
          · -- the deleted label itself
            subst hℓ
            rw [hld] at hl
            cases hl
            constructor
            · intro _ _
              rw [hstep]
              apply cleanLoop_none_mono
              rw [hDel]
              exact alookup_aerase_self _ _ hk
            · intro hor
              rcases hor with hnm | hkp
              · exact absurd (List.mem_cons_self _ _) hnm
              · rw [hkp] at hkeep'
                exact Bool.noConfusion hkeep'
          · have hld' : alookup smDel.labelToDir ℓ = some dir := by
              rw [hlook ℓ hℓ]
              exact hld
            have hdir : dir ≠ dirH := hdirOf ℓ dir hℓ hld
            obtain ⟨ih1, ih2⟩ := ihm ℓ dir hld'
            constructor
            · intro hmem hnk
              have hmem' : ℓ ∈ rest := by
                rcases List.mem_cons.mp hmem with h | h
                · exact absurd h hℓ
                · exact h
              rw [hstep]
              exact ih1 hmem' (by rw [hstart dir hdir]; exact hnk)
            · intro hor
              have hor' : ℓ ∉ rest ∨
                  keepStudy now maxAge (studyStart smDel dir) = true := by
                rcases hor with hnm | hkp
                · exact Or.inl (fun h => hnm (List.mem_cons_of_mem _ h))
                · exact Or.inr (by rw [hstart dir hdir]; exact hkp)
              obtain ⟨ha, hb⟩ := ih2 hor'
              rw [hstep]
              exact ⟨ha, by rw [hb, hdisk dir hdir]⟩

/-! ## C3: `rename_study` -/

theorem aset_keys {α : Type} (l : List (String × α)) (k : String) (v w : α)
    (h : alookup l k = some w) :
    (aset l k v).map Prod.fst = l.map Prod.fst := by
  induction l with
  | nil => simp [alookup] at h
  | cons hd tl ih =>
    obtain ⟨k0, v0⟩ := hd
    rw [alookup] at h
    by_cases hk : k0 = k
    · subst hk
      simp [aset]
    · rw [if_neg hk] at h
      simp only [aset, if_neg hk, List.map_cons]
      rw [ih h]

theorem renameIndexStudy_all (oldLabel newLabel : String)
    (index : List CardRec)
    (h : ∀ d ∈ index, alookup d "study" = some (JVal.s oldLabel)) :
    renameIndexStudy oldLabel newLabel index
      = index.map (fun d => aset d "study" (JVal.s newLabel)) := by
  induction index with
  | nil => rfl
  | cons d rest ih =>
    simp only [renameIndexStudy, List.map_cons] at *
    rw [if_pos (h d (List.mem_cons_self d rest))]
    have := ih (fun d' hm => h d' (List.mem_cons_of_mem d hm))
    simp only [renameIndexStudy] at this
    rw [this]

/-- C3: `rename_study(old, new)` returns false exactly when old is
unknown, new is already taken, or new is whitespace-only; on success every
card previously under old carries `study = new` (the single on-disk index
is what both memory and disk reads see), `list_all_cards(study=old)` is
empty, `list_all_cards(study=new)` is exactly the old study's cards with
their study field rewritten, the directory keeps its timestamp prefix with
only the sanitized label suffix changed, and `meta.json` is rewritten
(via the atomic temp-file replace of `_atomic_write_json`) with the new
label and directory name. Hypotheses are the well-formedness the study
manager itself maintains. -/
theorem c3_rename_study (sm : SMState)
    (oldLabel newLabel oldDirName newDirName : String)
    (sd : StudyDir) (fields : List (String × JVal)) (st : StartVal)
    (hold : alookup sm.labelToDir oldLabel = some oldDirName)
    (hnew : alookup sm.labelToDir newLabel = none)
    (hnewok : (pyStrip newLabel.data).isEmpty = false)
    (hstore : alookup sm.stores oldDirName = some oldDirName)
    (hdisk : alookup sm.disk oldDirName = some sd)
    (hmeta : sd.meta = some (MetaFile.json fields st))
    (hsplit : rename_dir_name oldDirName newLabel = some newDirName)
    (hfresh : newDirName = oldDirName ∨ alookup sm.disk newDirName = none)
    (hcards : ∀ d ∈ sd.index, alookup d "study" = some (JVal.s oldLabel))
    (hlk : (sm.labelToDir.map Prod.fst).Nodup)
    (hdk : (sm.disk.map Prod.fst).Nodup) :
    (∀ o n, rename_study sm o n = some (false, sm) ↔
      (alookup sm.labelToDir o = none ∨
       (alookup sm.labelToDir n).isSome = true ∨
       (pyStrip n.data).isEmpty = true)) ∧
    (∃ sm', rename_study sm oldLabel newLabel = some (true, sm') ∧
      alookup sm'.labelToDir newLabel = some newDirName ∧
      alookup sm'.labelToDir oldLabel = none ∧
      list_all_cards sm' (some oldLabel) = [] ∧
      list_all_cards sm' (some newLabel)
        = sd.index.map (fun d => aset d "study" (JVal.s newLabel)) ∧
      (∀ d ∈ list_all_cards sm' (some newLabel),
        alookup d "study" = some (JVal.s newLabel)) ∧
      alookup sm'.disk newDirName = some
        ⟨sd.index.map (fun d => aset d "study" (JVal.s newLabel)),
         some (MetaFile.json
           (aset (aset fields "label" (JVal.s newLabel))
             "dir_name" (JVal.s newDirName)) st)⟩ ∧
      (newDirName ≠ oldDirName → alookup sm'.disk oldDirName = none) ∧
      (∃ a b rest, pySplit2Underscore oldDirName = a :: b :: rest ∧
        newDirName = a ++ "_" ++ b ++ "_" ++ sanitize_label newLabel)) := by
  have holdnew : oldLabel ≠ newLabel := by
    intro e
    rw [e, hnew] at hold
    exact Option.noConfusion hold
  constructor
  · -- failure characterization
    intro o n
    constructor
    · intro hres
      by_contra hcon
      push_neg at hcon
      obtain ⟨h1, h2, h3⟩ := hcon
      have h2' : (alookup sm.labelToDir n).isSome = false := by
        simp only [Bool.not_eq_true] at h2
        exact h2
      have h3' : (pyStrip n.data).isEmpty = false := by
        simp only [Bool.not_eq_true] at h3
        exact h3
      cases ho : alookup sm.labelToDir o with
      | none => exact h1 ho
      | some d =>
        simp only [rename_study, ho, h2', h3', Bool.false_eq_true,
          if_false] at hres
        cases hrd : rename_dir_name d n with
        | none =>
          simp only [hrd] at hres
          exact Option.noConfusion hres
        | some nd =>
          simp only [hrd] at hres
          have hp := (Option.some.injEq _ _).mp hres
          exact Bool.noConfusion (congrArg Prod.fst hp)
    · intro hcon
      cases ho : alookup sm.labelToDir o with
      | none => simp [rename_study, ho]
      | some d =>
        rcases hcon with h1 | h2 | h3
        · rw [ho] at h1
          exact Option.noConfusion h1
        · simp [rename_study, ho, h2]
        · by_cases h2 : (alookup sm.labelToDir n).isSome = true
          · simp [rename_study, ho, h2]
          · have h2' : (alookup sm.labelToDir n).isSome = false := by
              simp only [Bool.not_eq_true] at h2
              exact h2
            simp [rename_study, ho, h2', h3]
  · -- success
    have hstep : rename_study sm oldLabel newLabel = some (true,
        { labelToDir := aset (aerase sm.labelToDir oldLabel) newLabel
            newDirName
          stores := aset (aerase (aset sm.stores oldDirName newDirName)
            oldDirName) newDirName newDirName
          cardIndex := sm.cardIndex.map (fun p =>
            if p.2 = oldDirName then (p.1, newDirName) else p)
          disk := diskRenameMeta
            (diskRenameDir
              (diskSetIndex sm.disk oldDirName
                (renameIndexStudy oldLabel newLabel))
              oldDirName newDirName)
            newDirName newLabel newDirName }) := by
      simp only [rename_study, hold, hnew, Option.isSome_none,
        Bool.false_eq_true, if_false, hnewok, hsplit, hstore,
        alookup_aset_self]
    have hI : renameIndexStudy oldLabel newLabel sd.index
        = sd.index.map (fun d => aset d "study" (JVal.s newLabel)) :=
      renameIndexStudy_all oldLabel newLabel sd.index hcards
    have hdisk1 : diskSetIndex sm.disk oldDirName
        (renameIndexStudy oldLabel newLabel)
        = aset sm.disk oldDirName
            ⟨renameIndexStudy oldLabel newLabel sd.index, sd.meta⟩ := by
      simp [diskSetIndex, hdisk]
    have hdisk2a : alookup (diskRenameDir
        (diskSetIndex sm.disk oldDirName
          (renameIndexStudy oldLabel newLabel)) oldDirName newDirName)
        newDirName
        = some ⟨renameIndexStudy oldLabel newLabel sd.index, sd.meta⟩ := by
      rw [hdisk1]
      rcases hfresh with he | hmiss
      · subst he
        simp [diskRenameDir, alookup_aset_self]
      · have hne : newDirName ≠ oldDirName := by
          intro e
          rw [e, hdisk] at hmiss
          exact Option.noConfusion hmiss
        rw [diskRenameDir]
        rw [alookup_aset_self]
        simp only
        rw [alookup_aset_ne _ _ _ _ (fun e => hne e.symm), hmiss]
        simp only [Option.isSome_none, Bool.false_eq_true, if_false]
        rw [alookup_aset_self]
    have hdisk2b : newDirName ≠ oldDirName →
        alookup (diskRenameDir
          (diskSetIndex sm.disk oldDirName
            (renameIndexStudy oldLabel newLabel)) oldDirName newDirName)
          oldDirName = none := by
      intro hne
      have hmiss : alookup sm.disk newDirName = none := by
        rcases hfresh with he | hmiss
        · exact absurd he hne
        · exact hmiss
      rw [hdisk1, diskRenameDir, alookup_aset_self]
      simp only
      rw [alookup_aset_ne _ _ _ _ (fun e => hne e.symm), hmiss]
      simp only [Option.isSome_none, Bool.false_eq_true, if_false]
      rw [alookup_aset_ne _ _ _ _ hne]
      apply alookup_aerase_self
      rw [aset_keys _ _ _ _ hdisk]
      exact hdk
    have hdisk3 : diskRenameMeta
        (diskRenameDir
          (diskSetIndex sm.disk oldDirName
            (renameIndexStudy oldLabel newLabel)) oldDirName newDirName)
        newDirName newLabel newDirName
        = aset (diskRenameDir
            (diskSetIndex sm.disk oldDirName
              (renameIndexStudy oldLabel newLabel)) oldDirName newDirName)
            newDirName
            ⟨renameIndexStudy oldLabel newLabel sd.index,
             some (MetaFile.json
               (aset (aset fields "label" (JVal.s newLabel))
                 "dir_name" (JVal.s newDirName)) st)⟩ := by
      rw [diskRenameMeta]
      rw [hdisk2a]
      simp only [hmeta]
    refine ⟨_, hstep, ?_, ?_, ?_, ?_, ?_, ?_, ?_, ?_⟩
    · exact alookup_aset_self _ _ _
    · rw [alookup_aset_ne _ _ _ _ (Ne.symm holdnew)]
      exact alookup_aerase_self _ _ hlk
    · have h2 : alookup (aset (aerase sm.labelToDir oldLabel) newLabel
          newDirName) oldLabel = none := by
        rw [alookup_aset_ne _ _ _ _ (Ne.symm holdnew)]
        exact alookup_aerase_self _ _ hlk
      simp [list_all_cards, h2]
    · simp only [list_all_cards, alookup_aset_self]
      rw [hdisk3]
      simp only [storeIndexAt, alookup_aset_self]
      exact hI
    · intro d hm
      simp only [list_all_cards, alookup_aset_self] at hm
      rw [hdisk3] at hm
      simp only [storeIndexAt, alookup_aset_self] at hm
      rw [hI] at hm
      rcases List.mem_map.mp hm with ⟨d0, _, hd0⟩
      rw [← hd0]
      exact alookup_aset_self _ _ _
    · rw [hdisk3, alookup_aset_self, hI]
    · intro hne
      rw [hdisk3, alookup_aset_ne _ _ _ _ hne]
      exact hdisk2b hne
    · rw [rename_dir_name] at hsplit
      cases hps : pySplit2Underscore oldDirName with
      | nil => rw [hps] at hsplit; exact Option.noConfusion hsplit
      | cons a tl =>
        cases tl with
        | nil => rw [hps] at hsplit; exact Option.noConfusion hsplit
        | cons b rest =>
          rw [hps] at hsplit
          simp only [Option.some.injEq] at hsplit
          exact ⟨a, b, rest, rfl, hsplit.symm⟩

/-- Witness for C3 at a concrete state: renaming study `"proj a"` to
`"Proj B"` succeeds, the new label resolves to the directory with the
timestamp prefix kept and suffix `proj-b`, and the old label lists no
cards. -/
theorem c3_rename_study_witness :
    ∃ sm', rename_study
        ⟨[("proj a", "2025-01-02_030405_proj-a")],
         [("2025-01-02_030405_proj-a", "2025-01-02_030405_proj-a")],
         [("c1", "2025-01-02_030405_proj-a")],
         [("2025-01-02_030405_proj-a",
           ⟨[[("card_id", JVal.s "c1"), ("study", JVal.s "proj a")]],
            some (MetaFile.json [("label", JVal.s "proj a")]
              StartVal.missing)⟩)]⟩
        "proj a" "Proj B" = some (true, sm') ∧
      alookup sm'.labelToDir "Proj B" = some "2025-01-02_030405_proj-b" ∧
      list_all_cards sm' (some "proj a") = [] ∧
      list_all_cards sm' (some "Proj B")
        = [[("card_id", JVal.s "c1"), ("study", JVal.s "Proj B")]] := by
  obtain ⟨hfail, sm', hres, h1, h2, h3, h4, h5, h6, h7, h8⟩ :=
    c3_rename_study
      ⟨[("proj a", "2025-01-02_030405_proj-a")],
       [("2025-01-02_030405_proj-a", "2025-01-02_030405_proj-a")],
       [("c1", "2025-01-02_030405_proj-a")],
       [("2025-01-02_030405_proj-a",
         ⟨[[("card_id", JVal.s "c1"), ("study", JVal.s "proj a")]],
          some (MetaFile.json [("label", JVal.s "proj a")]
            StartVal.missing)⟩)]⟩
      "proj a" "Proj B" "2025-01-02_030405_proj-a"
      "2025-01-02_030405_proj-b"
      ⟨[[("card_id", JVal.s "c1"), ("study", JVal.s "proj a")]],
       some (MetaFile.json [("label", JVal.s "proj a")] StartVal.missing)⟩
      [("label", JVal.s "proj a")] StartVal.missing
      (by decide) (by decide) (by decide) (by decide) (by decide) rfl
      (by decide) (Or.inr (by decide)) (by decide) (by decide) (by decide)
  refine ⟨sm', hres, h1, h3, ?_⟩
  rw [h4]
  decide

/-! ## C5: `reconcile_orphaned_agents` -/

theorem update_card_of_found (cid : String)
    (changes : List (String × JVal))
    (hmerge : ∀ d : CardRec, alookup d "card_id" = some (JVal.s cid) →
      alookup (mergeChanges d changes) "card_id" = some (JVal.s cid)) :
    ∀ (index : List CardRec) (d : CardRec),
    findCard index cid = some d →
    ∃ index', update_card index cid changes
        = (some (mergeChanges d changes), index', true) ∧
      findCard index' cid = some (mergeChanges d changes) ∧
      (∀ cid', cid' ≠ cid → findCard index' cid' = findCard index cid') := by
  intro index
  induction index with
  | nil =>
    intro d h
    simp [findCard] at h
  | cons e rest ih =>
    intro d h
    by_cases hp : alookup e "card_id" = some (JVal.s cid)
    · have hde : d = e := by
        rw [findCard, List.find?_cons_of_pos _ (by simp [hp])] at h
        exact (Option.some.injEq _ _).mp h.symm
      subst hde
      have hm := hmerge d hp
      refine ⟨mergeChanges d changes :: rest, ?_, ?_, ?_⟩
      · rw [update_card, if_pos hp]
      · rw [findCard, List.find?_cons_of_pos _ (by simp [hm])]
      · intro cid' hne
        rw [findCard, List.find?_cons_of_neg _
          (by simp [hm]; exact fun e => hne e.symm)]
        rw [findCard, List.find?_cons_of_neg _
          (by simp [hp]; exact fun e => hne e.symm)]
    · have h' : findCard rest cid = some d := by
        rw [findCard, List.find?_cons_of_neg _ (by simp [hp])] at h
        exact h
      obtain ⟨index'', hup, hf1, hf2⟩ := ih d h'
      refine ⟨e :: index'', ?_, ?_, ?_⟩
      · rw [update_card, if_neg hp, hup]
      · rw [findCard, List.find?_cons_of_neg _ (by simp [hp])]
        exact hf1
      · intro cid' hne
        rw [findCard, findCard]
        by_cases hpe : alookup e "card_id" = some (JVal.s cid')
        · rw [List.find?_cons_of_pos _ (by simp [hpe]),
              List.find?_cons_of_pos _ (by simp [hpe])]
        · rw [List.find?_cons_of_neg _ (by simp [hpe]),
              List.find?_cons_of_neg _ (by simp [hpe])]
          exact hf2 cid' hne

theorem storeUpdateCard_found (sm : SMState) (dir cid : String)
    (sd : StudyDir) (d : CardRec) (changes : List (String × JVal))
    (hst : alookup sm.stores dir = some dir)
    (hdk : alookup sm.disk dir = some sd)
    (hfind : findCard sd.index cid = some d)
    (hmerge : ∀ d : CardRec, alookup d "card_id" = some (JVal.s cid) →
      alookup (mergeChanges d changes) "card_id" = some (JVal.s cid)) :
    ∃ index', storeUpdateCard sm dir cid changes
        = { sm with disk := aset sm.disk dir ⟨index', sd.meta⟩ } ∧
      findCard index' cid = some (mergeChanges d changes) ∧
      (∀ cid', cid' ≠ cid → findCard index' cid' = findCard sd.index cid') := by
  obtain ⟨index', hup, hf1, hf2⟩ :=
    update_card_of_found cid changes hmerge sd.index d hfind
  refine ⟨index', ?_, hf1, hf2⟩
  simp only [storeUpdateCard, hst, hdk, hup]
  simp

theorem wfCard_unpack (sm : SMState) (c : CardRec)
    (h : wfCard sm c = true) :
    ∃ label dir sd, cardStudy c = some label ∧
      alookup sm.labelToDir label = some dir ∧
      alookup sm.stores dir = some dir ∧
      alookup sm.disk dir = some sd ∧
      findCard sd.index (cardIdD c) = some c ∧
      alookup c "card_id" = some (JVal.s (cardIdD c)) := by
  unfold wfCard at h
  cases hcs : cardStudy c with
  | none =>
    simp only [hcs] at h
    exact Bool.noConfusion h
  | some label =>
    simp only [hcs] at h
    cases hld : alookup sm.labelToDir label with
    | none =>
      simp only [hld] at h
      exact Bool.noConfusion h
    | some dir =>
      simp only [hld] at h
      cases hst : alookup sm.stores dir with
      | none =>
        simp only [hst] at h
        exact Bool.noConfusion h
      | some ptr =>
        simp only [hst] at h
        by_cases hptr : ptr = dir
        · subst hptr
          rw [if_neg (by simp)] at h
          cases hdk : alookup sm.disk ptr with
          | none =>
            simp only [hdk] at h
            exact Bool.noConfusion h
          | some sd =>
            simp only [hdk] at h
            have hfind : findCard sd.index (cardIdD c) = some c := by
              simpa using h
            have hcid := List.find?_some hfind
            simp only [beq_iff_eq] at hcid
            exact ⟨label, ptr, sd, rfl, hld, hst, hdk, hfind, hcid⟩
        · rw [if_pos (by simpa using hptr)] at h
          exact Bool.noConfusion h

theorem wfCard_preserved (sm sm₁ : SMState) (c : CardRec)
    (hL : sm₁.labelToDir = sm.labelToDir) (hS : sm₁.stores = sm.stores)
    (hD : ∀ dir sd0, alookup sm.disk dir = some sd0 →
      ∃ sd₁, alookup sm₁.disk dir = some sd₁ ∧
        findCard sd₁.index (cardIdD c) = findCard sd0.index (cardIdD c))
    (hwf : wfCard sm c = true) : wfCard sm₁ c = true := by
  obtain ⟨label, dir, sd, hcs, hld, hst, hdk, hfind, _⟩ :=
    wfCard_unpack sm c hwf
  obtain ⟨sd₁, hdk₁, hfind₁⟩ := hD dir sd hdk
  unfold wfCard
  simp only [hcs, hL, hld, hS, hst, hdk₁, hfind₁, hfind]
  simp

theorem orphanB_eq_true_iff (dks : List String) (d : CardRec) :
    orphanB dks d = true ↔
      (card_typeD d = some "agent" ∧ previewStatus d = PVal.s "running" ∧
       dks.contains (cardIdD d) = false) := by
  simp [orphanB, Bool.and_eq_true, Bool.not_eq_true']
  tauto

theorem mergeChanges_preview_card_id (d0 : CardRec) (v : JVal) :
    alookup (mergeChanges d0 [("preview", v)]) "card_id"
      = alookup d0 "card_id" := by
  have hco : coerceChange "preview" v = v := by
    cases v <;> rfl
  simp only [mergeChanges, List.foldl_cons, List.foldl_nil, hco]
  exact alookup_aset_ne _ _ _ _ (by decide)

theorem reconcileLoop_sound (dks : List String) (fresh : Nat → FreshStudy) :
    ∀ (todo : List CardRec) (sm : SMState) (n fixed : Nat),
    (∀ d ∈ todo, wfCard sm d = true) →
    (todo.map cardIdD).Nodup →
    (reconcileLoop dks fresh todo sm n fixed).2
        = fixed + (todo.filter (orphanB dks)).length ∧
    (reconcileLoop dks fresh todo sm n fixed).1.labelToDir
        = sm.labelToDir ∧
    (reconcileLoop dks fresh todo sm n fixed).1.stores = sm.stores ∧
    (∀ dir sd0, alookup sm.disk dir = some sd0 →
      ∀ cid, (∀ d ∈ todo, orphanB dks d = true → cardIdD d ≠ cid) →
      ∃ sd', alookup (reconcileLoop dks fresh todo sm n fixed).1.disk dir
          = some sd' ∧
        findCard sd'.index cid = findCard sd0.index cid ∧
        sd'.meta = sd0.meta) ∧
    (∀ d ∈ todo, ∀ label dir,
      cardStudy d = some label →
      alookup sm.labelToDir label = some dir →
      ∃ sd', alookup (reconcileLoop dks fresh todo sm n fixed).1.disk dir
          = some sd' ∧
        (orphanB dks d = true →
          findCard sd'.index (cardIdD d)
            = some (mergeChanges d [("preview",
                JVal.pdict (orphanUpdatePreview
                  ((cardPreview d).getD [])))])) ∧
        (orphanB dks d = false →
          findCard sd'.index (cardIdD d) = some d)) := by
  intro todo
  induction todo with
  | nil =>
    intro sm n fixed _ _
    refine ⟨by simp [reconcileLoop], rfl, rfl, ?_, ?_⟩
    · intro dir sd0 hdk cid _
      exact ⟨sd0, hdk, rfl, rfl⟩
    · intro d hd
      exact absurd hd (List.not_mem_nil d)
  | cons d rest ih =>
    intro sm n fixed H1 H2
    have hwfd := H1 d (List.mem_cons_self d rest)
    have H1rest : ∀ d' ∈ rest, wfCard sm d' = true :=
      fun d' h => H1 d' (List.mem_cons_of_mem d h)
    rw [List.map_cons, List.nodup_cons] at H2
    obtain ⟨Hid, H2rest⟩ := H2
    obtain ⟨label₀, dir₀, sd₀, hcs₀, hld₀, hst₀, hdk₀, hfind₀, hcid₀⟩ :=
      wfCard_unpack sm d hwfd
    -- common continuation for the three skip branches
    have common :
        reconcileLoop dks fresh (d :: rest) sm n fixed
            = reconcileLoop dks fresh rest sm n fixed →
        orphanB dks d = false →
        ((reconcileLoop dks fresh (d :: rest) sm n fixed).2
            = fixed + ((d :: rest).filter (orphanB dks)).length ∧
         (reconcileLoop dks fresh (d :: rest) sm n fixed).1.labelToDir
            = sm.labelToDir ∧
         (reconcileLoop dks fresh (d :: rest) sm n fixed).1.stores
            = sm.stores ∧
         (∀ dir sd0, alookup sm.disk dir = some sd0 →
           ∀ cid, (∀ d' ∈ d :: rest,
               orphanB dks d' = true → cardIdD d' ≠ cid) →
           ∃ sd', alookup
               (reconcileLoop dks fresh (d :: rest) sm n fixed).1.disk dir
               = some sd' ∧
             findCard sd'.index cid = findCard sd0.index cid ∧
             sd'.meta = sd0.meta) ∧
         (∀ d' ∈ d :: rest, ∀ label dir,
           cardStudy d' = some label →
           alookup sm.labelToDir label = some dir →
           ∃ sd', alookup
               (reconcileLoop dks fresh (d :: rest) sm n fixed).1.disk dir
               = some sd' ∧
             (orphanB dks d' = true →
               findCard sd'.index (cardIdD d')
                 = some (mergeChanges d' [("preview",
                     JVal.pdict (orphanUpdatePreview
                       ((cardPreview d').getD [])))])) ∧
             (orphanB dks d' = false →
               findCard sd'.index (cardIdD d') = some d'))) := by
      intro hstep horph
      obtain ⟨ihc, ihL, ihS, ihF, ihC⟩ := ih sm n fixed H1rest H2rest
      refine ⟨?_, by rw [hstep]; exact ihL, by rw [hstep]; exact ihS,
        ?_, ?_⟩
      · rw [hstep, ihc, List.filter_cons_of_neg (by simp [horph])]
      · intro dir sd0 hdk cid hcond
        rw [hstep]
        exact ihF dir sd0 hdk cid
          (fun d' h => hcond d' (List.mem_cons_of_mem d h))
      · intro d' hd' label dir hcs hld
        rcases List.mem_cons.mp hd' with he | hmem
        · subst he
          -- head card, not an orphan: its record is untouched
          rw [hcs] at hcs₀
          cases hcs₀
          rw [hld] at hld₀
          cases hld₀
          rw [hstep]
          obtain ⟨sd', hfin, hpres, hmeta'⟩ := ihF dir₀ sd₀ hdk₀
            (cardIdD d') (fun d2 h2 ho2 => by
              intro he2
              exact Hid (he2 ▸ List.mem_map.mpr ⟨d2, h2, rfl⟩))
          refine ⟨sd', hfin, ?_, ?_⟩
          · intro ho
            rw [ho] at horph
            exact Bool.noConfusion horph
          · intro _
            rw [hpres]
            exact hfind₀
        · rw [hstep]
          exact ihC d' hmem label dir hcs hld
    by_cases hc1 : card_typeD d ≠ some "agent"
    · refine common ?_ ?_
      · simp only [reconcileLoop]
        rw [if_pos hc1]
      · rw [Bool.eq_false_iff]
        intro ho
        exact hc1 ((orphanB_eq_true_iff dks d).mp ho).1
    · push_neg at hc1
      by_cases hc2 : previewStatus d ≠ PVal.s "running"
      · refine common ?_ ?_
        · simp only [reconcileLoop]
          rw [if_neg (by simp [hc1]), if_pos hc2]
        · rw [Bool.eq_false_iff]
          intro ho
          exact hc2 ((orphanB_eq_true_iff dks d).mp ho).2.1
      · push_neg at hc2
        by_cases hc3 : dks.contains (cardIdD d) = true
        · refine common ?_ ?_
          · simp only [reconcileLoop]
            rw [if_neg (by simp [hc1]), if_neg (by simp [hc2]), if_pos hc3]
          · rw [Bool.eq_false_iff]
            intro ho
            rw [((orphanB_eq_true_iff dks d).mp ho).2.2] at hc3
            exact Bool.noConfusion hc3
        · -- orphan branch: the card is force-updated
          have hc3' : dks.contains (cardIdD d) = false := by
            simp only [Bool.not_eq_true] at hc3
            exact hc3
          have horph : orphanB dks d = true :=
            (orphanB_eq_true_iff dks d).mpr ⟨hc1, hc2, hc3'⟩
          have hgoc : get_or_create_study sm (cardStudy d) (fresh n)
              = (label₀, dir₀, sm) := by
            simp [get_or_create_study, hcs₀, hld₀, hst₀]
          have hmerge : ∀ d0 : CardRec,
              alookup d0 "card_id" = some (JVal.s (cardIdD d)) →
              alookup (mergeChanges d0 [("preview",
                JVal.pdict (orphanUpdatePreview ((cardPreview d).getD [])))])
                "card_id" = some (JVal.s (cardIdD d)) := by
            intro d0 h0
            rw [mergeChanges_preview_card_id]
            exact h0
          obtain ⟨index', hsm₁, hf1, hf2⟩ := storeUpdateCard_found sm dir₀
            (cardIdD d) sd₀ d
            [("preview", JVal.pdict (orphanUpdatePreview
              ((cardPreview d).getD [])))]
            hst₀ hdk₀ hfind₀ hmerge
          have hstep : reconcileLoop dks fresh (d :: rest) sm n fixed
              = reconcileLoop dks fresh rest
                  { sm with disk := aset sm.disk dir₀ ⟨index', sd₀.meta⟩ }
                  (n + 1) (fixed + 1) := by
            simp only [reconcileLoop]
            rw [if_neg (by simp [hc1]), if_neg (by simp [hc2]),
              if_neg (by intro h; rw [hc3'] at h; exact Bool.noConfusion h)]
            simp only [hgoc, hsm₁]
          set sm₁ : SMState :=
            { sm with disk := aset sm.disk dir₀ ⟨index', sd₀.meta⟩ }
            with hsm₁def
          have hidrest : ∀ d' ∈ rest, cardIdD d' ≠ cardIdD d := by
            intro d' h' he
            exact Hid (he ▸ List.mem_map.mpr ⟨d', h', rfl⟩)
          have hdiskstep : ∀ dir sd0, alookup sm.disk dir = some sd0 →
              ∀ cid, cid ≠ cardIdD d →
              ∃ sd₁, alookup sm₁.disk dir = some sd₁ ∧
                findCard sd₁.index cid = findCard sd0.index cid ∧
                sd₁.meta = sd0.meta := by
            intro dir sd0 hdk cid hne
            by_cases hdir : dir = dir₀
            · have he : sd0 = sd₀ := by
                rw [hdir, hdk₀] at hdk
                exact ((Option.some.injEq _ _).mp hdk).symm
              refine ⟨⟨index', sd0.meta⟩, ?_, ?_, rfl⟩
              · rw [hsm₁def]
                show alookup (aset sm.disk dir₀ ⟨index', sd₀.meta⟩) dir
                    = some ⟨index', sd0.meta⟩
                rw [hdir, he, alookup_aset_self]
              · show findCard index' cid = findCard sd0.index cid
                rw [he]
                exact hf2 cid hne
            · refine ⟨sd0, ?_, rfl, rfl⟩
              rw [hsm₁def]
              show alookup (aset sm.disk dir₀ ⟨index', sd₀.meta⟩) dir
                  = some sd0
              rw [alookup_aset_ne _ _ _ _ (fun e => hdir e.symm)]
              exact hdk
          have H1rest' : ∀ d' ∈ rest, wfCard sm₁ d' = true := by
            intro d' h'
            refine wfCard_preserved sm sm₁ d' rfl rfl ?_ (H1rest d' h')
            intro dir sd0 hdk
            obtain ⟨sd₁, ha, hb, _⟩ := hdiskstep dir sd0 hdk (cardIdD d')
              (hidrest d' h')
            exact ⟨sd₁, ha, hb⟩
          obtain ⟨ihc, ihL, ihS, ihF, ihC⟩ :=
            ih sm₁ (n + 1) (fixed + 1) H1rest' H2rest
          refine ⟨?_, by rw [hstep]; exact ihL, by rw [hstep]; exact ihS,
            ?_, ?_⟩
          · rw [hstep, ihc, List.filter_cons_of_pos (by simp [horph])]
            simp only [List.length_cons]
            omega
          · intro dir sd0 hdk cid hcond
            have hne : cid ≠ cardIdD d :=
              fun he => hcond d (List.mem_cons_self d rest) horph he.symm
            obtain ⟨sd₁, ha, hb, hm⟩ := hdiskstep dir sd0 hdk cid hne
            obtain ⟨sd', ha', hb', hm'⟩ := ihF dir sd₁ ha cid
              (fun d' h' => hcond d' (List.mem_cons_of_mem d h'))
            rw [hstep]
            exact ⟨sd', ha', by rw [hb', hb], by rw [hm', hm]⟩
          · intro d' hd' label dir hcs hld
            rcases List.mem_cons.mp hd' with he | hmem
            · subst he
              rw [hcs] at hcs₀
              cases hcs₀
              rw [hld] at hld₀
              cases hld₀
              have ha : alookup sm₁.disk dir₀ = some ⟨index', sd₀.meta⟩ :=
                alookup_aset_self _ _ _
              obtain ⟨sd', hfin, hpres, _⟩ := ihF dir₀ ⟨index', sd₀.meta⟩
                ha (cardIdD d') (fun d2 h2 _ => hidrest d2 h2)
              rw [hstep]
              refine ⟨sd', hfin, ?_, ?_⟩
              · intro _
                rw [hpres]
                exact hf1
              · intro ho
                rw [ho] at horph
                exact Bool.noConfusion horph
            · have hld₁ : alookup sm₁.labelToDir label = some dir := hld
              rw [hstep]
              exact ihC d' hmem label dir hcs hld₁

theorem aset_isEmpty {α : Type} (l : List (String × α)) (k : String)
    (v : α) : (aset l k v).isEmpty = false := by
  cases l with
  | nil => rfl
  | cons h t =>
    obtain ⟨k0, v0⟩ := h
    by_cases hk : k0 = k <;> simp [aset, hk]

/-- C5 counterexample: a stored AGENT card with preview status
`"pending"` and no in-memory dispatch is left untouched by
`reconcile_orphaned_agents` — the loop skips every status other than
`"running"` — contradicting the claim that pending cards are also
force-failed at startup. -/
theorem c5_pending_counterexample :
    reconcile_orphaned_agents
      ⟨[("s", "d")], [("d", "d")], [("a1", "d")],
       [("d", ⟨[[("card_id", JVal.s "a1"), ("card_type", JVal.s "agent"),
                 ("study", JVal.s "s"),
                 ("preview", JVal.pdict [("status", PVal.s "pending")])]],
         none⟩)]⟩
      [] (fun _ => ⟨"auto", "autodir", MetaFile.corrupt, MetaFile.corrupt⟩)
      = (⟨[("s", "d")], [("d", "d")], [("a1", "d")],
         [("d", ⟨[[("card_id", JVal.s "a1"),
                   ("card_type", JVal.s "agent"),
                   ("study", JVal.s "s"),
                   ("preview", JVal.pdict [("status", PVal.s "pending")])]],
           none⟩)]⟩, 0) ∧
    previewStatus [("card_id", JVal.s "a1"), ("card_type", JVal.s "agent"),
      ("study", JVal.s "s"),
      ("preview", JVal.pdict [("status", PVal.s "pending")])]
      = PVal.s "pending" := ⟨rfl, rfl⟩

/-- C5 (amended): on startup `reconcile_orphaned_agents` force-updates
exactly the stored AGENT cards whose preview status is `"running"` and
that have no corresponding in-memory dispatch, setting preview status
`"failed"` with error text `Server restarted while agent was running`;
cards whose status is `"pending"` (or anything other than `"running"`)
keep their record unchanged; the return value counts the cards fixed.
Hypotheses are the well-formedness the study manager maintains: every
card's study resolves to the store holding its record, and card ids are
unique. -/
theorem c5_reconcile_orphaned_agents (sm : SMState)
    (dks : List String) (fresh : Nat → FreshStudy)
    (H1 : ∀ d ∈ list_all_cards sm none, wfCard sm d = true)
    (H2 : ((list_all_cards sm none).map cardIdD).Nodup) :
    (reconcile_orphaned_agents sm dks fresh).2
        = ((list_all_cards sm none).filter (orphanB dks)).length ∧
    (∀ d ∈ list_all_cards sm none, ∀ label dir,
      cardStudy d = some label →
      alookup sm.labelToDir label = some dir →
      ∃ sd', alookup (reconcile_orphaned_agents sm dks fresh).1.disk dir
          = some sd' ∧
        (orphanB dks d = true →
          findCard sd'.index (cardIdD d)
            = some (mergeChanges d [("preview",
                JVal.pdict (orphanUpdatePreview
                  ((cardPreview d).getD [])))])) ∧
        (orphanB dks d = false →
          findCard sd'.index (cardIdD d) = some d)) ∧
    (∀ p, alookup (orphanUpdatePreview p) "status"
        = some (PVal.s "failed") ∧
      alookup (orphanUpdatePreview p) "error"
        = some (PVal.s "Server restarted while agent was running")) ∧
    (∀ d : CardRec, previewStatus (mergeChanges d [("preview",
        JVal.pdict (orphanUpdatePreview ((cardPreview d).getD [])))])
        = PVal.s "failed") := by
  obtain ⟨ihc, _, _, _, ihC⟩ := reconcileLoop_sound dks fresh
    (list_all_cards sm none) sm 0 0 H1 H2
  refine ⟨by simpa using ihc, ihC, ?_, ?_⟩
  · intro p
    constructor
    · rw [orphanUpdatePreview, alookup_aset_ne _ _ _ _ (by decide),
        alookup_aset_self]
    · rw [orphanUpdatePreview, alookup_aset_self]
  · have hgen : ∀ (d0 : CardRec) (p : List (String × PVal)),
        previewStatus (mergeChanges d0
          [("preview", JVal.pdict (orphanUpdatePreview p))])
          = PVal.s "failed" := by
      intro d0 p
      have hme : mergeChanges d0
          [("preview", JVal.pdict (orphanUpdatePreview p))]
          = aset d0 "preview" (JVal.pdict (orphanUpdatePreview p)) := by
        simp only [mergeChanges, List.foldl_cons, List.foldl_nil]
        rfl
      unfold previewStatus cardPreview
      rw [hme, alookup_aset_self]
      simp only [orphanUpdatePreview, aset_isEmpty, Bool.false_eq_true,
        if_false]
      rw [alookup_aset_ne _ _ _ _ (by decide), alookup_aset_self]
    intro d
    exact hgen d _

/-- Witness for C5 (amended) at a concrete state: one running orphaned
agent card is rewritten to the merged record with status failed, and the
count is 1. -/
theorem c5_reconcile_orphaned_agents_witness :
    ∃ sd', alookup (reconcile_orphaned_agents
        ⟨[("s", "d")], [("d", "d")], [("a1", "d")],
         [("d", ⟨[[("card_id", JVal.s "a1"), ("card_type", JVal.s "agent"),
                   ("study", JVal.s "s"),
                   ("preview", JVal.pdict [("status", PVal.s "running")])]],
           none⟩)]⟩
        [] (fun _ => ⟨"auto", "autodir", MetaFile.corrupt,
          MetaFile.corrupt⟩)).1.disk "d" = some sd' ∧
      findCard sd'.index "a1"
        = some [("card_id", JVal.s "a1"), ("card_type", JVal.s "agent"),
                ("study", JVal.s "s"),
                ("preview", JVal.pdict [("status", PVal.s "failed"),
                  ("error",
                   PVal.s "Server restarted while agent was running")])] ∧
      (reconcile_orphaned_agents
        ⟨[("s", "d")], [("d", "d")], [("a1", "d")],
         [("d", ⟨[[("card_id", JVal.s "a1"), ("card_type", JVal.s "agent"),
                   ("study", JVal.s "s"),
                   ("preview", JVal.pdict [("status", PVal.s "running")])]],
           none⟩)]⟩
        [] (fun _ => ⟨"auto", "autodir", MetaFile.corrupt,
          MetaFile.corrupt⟩)).2 = 1 := by
  obtain ⟨hc, hcards, _, _⟩ := c5_reconcile_orphaned_agents
    ⟨[("s", "d")], [("d", "d")], [("a1", "d")],
     [("d", ⟨[[("card_id", JVal.s "a1"), ("card_type", JVal.s "agent"),
               ("study", JVal.s "s"),
               ("preview", JVal.pdict [("status", PVal.s "running")])]],
       none⟩)]⟩
    [] (fun _ => ⟨"auto", "autodir", MetaFile.corrupt, MetaFile.corrupt⟩)
    (by decide) (by decide)
  obtain ⟨sd', ha, hb, _⟩ := hcards
    [("card_id", JVal.s "a1"), ("card_type", JVal.s "agent"),
     ("study", JVal.s "s"),
     ("preview", JVal.pdict [("status", PVal.s "running")])]
    (by decide) "s" "d" (by decide) (by decide)
  have hb' := hb (by decide)
  rw [show cardIdD [("card_id", JVal.s "a1"), ("card_type", JVal.s "agent"),
      ("study", JVal.s "s"),
      ("preview", JVal.pdict [("status", PVal.s "running")])] = "a1"
    from by decide] at hb'
  refine ⟨sd', ha, ?_, by rw [hc]; decide⟩
  rw [hb']
  decide

/-- C10: `clean_studies(age)` deletes every known study whose `meta.json`
is missing, unreadable, or lacks a parseable truthy ISO `start_time`,
regardless of the age threshold; a study is kept exactly when it has a
valid `start_time` strictly newer than `now` minus the parsed age; and the
return value counts the studies actually deleted. -/
theorem c10_clean_studies (now maxAge : ℚ) (sm : SMState) (ageStr : String)
    (hage : parse_age ageStr = some maxAge)
    (hk : (sm.labelToDir.map Prod.fst).Nodup)
    (hd : (sm.labelToDir.map Prod.snd).Nodup) :
    ∃ n sm', clean_studies now sm ageStr = some (n, sm') ∧
      n = ((sm.labelToDir.map Prod.fst).filter
            (shouldDeleteB now maxAge sm)).length ∧
      (∀ ℓ dir, alookup sm.labelToDir ℓ = some dir →
        ((∀ ts, studyStart sm dir ≠ StartVal.ok ts) →
            alookup sm'.labelToDir ℓ = none) ∧
        (∀ ts, studyStart sm dir = StartVal.ok ts →
            (alookup sm'.labelToDir ℓ = some dir ↔ now - ts < maxAge) ∧
            (alookup sm'.labelToDir ℓ = none ↔ ¬ now - ts < maxAge))) := by
  have hlabels : (sm.labelToDir.map Prod.fst).Nodup := hk
  obtain ⟨hcount, hmain⟩ := cleanLoop_sound now maxAge
    (sm.labelToDir.map Prod.fst) sm 0 hk hd hlabels
  refine ⟨(cleanLoop now maxAge (sm.labelToDir.map Prod.fst) sm 0).1,
          (cleanLoop now maxAge (sm.labelToDir.map Prod.fst) sm 0).2,
          ?_, by simpa using hcount, ?_⟩
  · simp [clean_studies, hage]
  · intro ℓ dir hld
    have hmem : ℓ ∈ sm.labelToDir.map Prod.fst := alookup_key_mem hld
    obtain ⟨h1, h2⟩ := hmain ℓ dir hld
    constructor
    · intro hbad
      refine h1 hmem ?_
      cases hsv : studyStart sm dir with
      | ok ts => exact absurd hsv (hbad ts)
      | missing => simp [keepStudy, hsv]
      | empty => simp [keepStudy, hsv]
      | bad s => simp [keepStudy, hsv]
    · intro ts hts
      by_cases hnew : now - ts < maxAge
      · have hkt : keepStudy now maxAge (studyStart sm dir) = true := by
          simp [keepStudy, hts, hnew]
        have hsome := (h2 (Or.inr hkt)).1
        refine ⟨⟨fun _ => hnew, fun _ => hsome⟩, ?_, ?_⟩
        · intro hnone
          rw [hsome] at hnone
          exact Option.noConfusion hnone
        · intro hcon
          exact absurd hnew hcon
      · have hkf : keepStudy now maxAge (studyStart sm dir) = false := by
          simp [keepStudy, hts, hnew]
        have hnone := h1 hmem hkf
        refine ⟨⟨?_, fun hcon => absurd hcon hnew⟩,
                ⟨fun _ => hnew, fun _ => hnone⟩⟩
        intro hsome
        rw [hnone] at hsome
        exact Option.noConfusion hsome

/-- Witness for C10 at a concrete state: one stale study (start time 0,
age 7d, now well past the threshold) is deleted, and the count is 1. -/
theorem c10_clean_studies_witness :
    ∃ n sm', clean_studies 1000000
        ⟨[("old", "d1")], [("d1", "d1")], [],
         [("d1", ⟨[], some (MetaFile.json [] (StartVal.ok 0))⟩)]⟩
        "7d" = some (n, sm') ∧ n = 1 ∧
      alookup sm'.labelToDir "old" = none := by
  have hage : parse_age "7d" = some 604800 := by
    have h0 : parse_age "7d"
        = some ((digitsToNat ['7'] : ℚ) * 86400) := rfl
    have h7 : digitsToNat ['7'] = 7 := by decide
    rw [h0, h7]
    norm_num
  have hstale : ¬ ((1000000 : ℚ) - 0 < 604800) := by norm_num
  obtain ⟨n, sm', hcs, hn, hmain⟩ := c10_clean_studies 1000000 604800
    ⟨[("old", "d1")], [("d1", "d1")], [],
     [("d1", ⟨[], some (MetaFile.json [] (StartVal.ok 0))⟩)]⟩
    "7d" hage (by decide) (by decide)
  refine ⟨n, sm', hcs, ?_, ?_⟩
  · rw [hn]
    rw [show List.map Prod.fst [("old", "d1")] = ["old"] from rfl,
        List.filter_cons_of_pos]
    · rfl
    · simp [shouldDeleteB, keepStudy, studyStart, alookup]
      norm_num
  · obtain ⟨h1, h2⟩ := hmain "old" "d1" rfl
    exact ((h2 0 rfl).2).mpr hstale

/-! ## C4: search sanitization -/

theorem any_congr {α : Type} {p q : α → Bool} :
    ∀ (l : List α), (∀ a ∈ l, p a = q a) → l.any p = l.any q := by
  intro l
  induction l with
  | nil => intro _; rfl
  | cons a rest ih =>
    intro h
    simp only [List.any_cons]
    rw [h a (List.mem_cons_self a rest),
      ih (fun a' h' => h a' (List.mem_cons_of_mem a h'))]

theorem ws_toLower_not_alpha {c : Char} (hc : pyIsSpace c = true) :
    c.toLower.isAlpha = false := by
  simp only [pyIsSpace, Bool.or_eq_true, decide_eq_true_eq] at hc
  rcases hc with ((((h | h) | h) | h) | h) | h <;> subst h <;> decide

theorem ws_not_word {c : Char} (hc : pyIsSpace c = true) :
    isWordChar c = false := by
  simp only [pyIsSpace, Bool.or_eq_true, decide_eq_true_eq] at hc
  rcases hc with ((((h | h) | h) | h) | h) | h <;> subst h <;> decide

theorem kwHeads_alpha :
    sqlKeywords.all (fun kw =>
      match kw with
      | k :: _ => k.isAlpha
      | [] => false) = true := by decide

theorem kwChars_alpha :
    sqlKeywords.all (fun kw => kw.all Char.isAlpha) = true := by decide

theorem kwAt_ws_false {c : Char} (hc : pyIsSpace c = true)
    {kw : List Char} (hkw : kw ∈ sqlKeywords) (r : List Char) :
    kwAt kw (c :: r) = false := by
  have hhead := (List.all_eq_true.mp kwHeads_alpha) kw hkw
  cases kw with
  | nil => simp at hhead
  | cons k kr =>
    have hka : k.isAlpha = true := by simpa using hhead
    have hne : decide (c.toLower = k) = false := by
      rw [decide_eq_false_iff_not]
      intro he
      have hlow := ws_toLower_not_alpha hc
      rw [he, hka] at hlow
      exact Bool.noConfusion hlow
    simp [kwAt, hne]

theorem kwScan_ws_cons {c : Char} (hc : pyIsSpace c = true)
    (l : List Char) : kwScan false (c :: l) = kwScan false l := by
  have hany : sqlKeywords.any (fun kw => kwAt kw (c :: l)) = false := by
    rw [List.any_eq_false]
    intro kw hkw
    simp [kwAt_ws_false hc hkw l]
  simp [kwScan, hany, ws_not_word hc]

theorem kwScan_dropWhile (l : List Char) :
    kwScan false (l.dropWhile pyIsSpace) = kwScan false l := by
  induction l with
  | nil => rfl
  | cons c rest ih =>
    cases hc : pyIsSpace c with
    | true =>
      rw [List.dropWhile_cons_of_pos hc, ih, kwScan_ws_cons hc]
    | false =>
      rw [List.dropWhile_cons_of_neg (by simp [hc])]

theorem kwAt_concat_ws {c : Char} (hc : pyIsSpace c = true) :
    ∀ (kw x : List Char), kw.all Char.isAlpha = true →
    kwAt kw (x ++ [c]) = kwAt kw x := by
  intro kw
  induction kw with
  | nil =>
    intro x _
    cases x with
    | nil =>
      show kwAt [] [c] = kwAt [] []
      simp [kwAt, ws_not_word hc]
    | cons y ys => rfl
  | cons k kr ih =>
    intro x hall
    rw [List.all_cons, Bool.and_eq_true] at hall
    cases x with
    | nil =>
      show kwAt (k :: kr) [c] = kwAt (k :: kr) []
      have hne : decide (c.toLower = k) = false := by
        rw [decide_eq_false_iff_not]
        intro he
        have hlow := ws_toLower_not_alpha hc
        rw [he, hall.1] at hlow
        exact Bool.noConfusion hlow
      simp [kwAt, hne]
    | cons y ys =>
      show kwAt (k :: kr) (y :: (ys ++ [c])) = kwAt (k :: kr) (y :: ys)
      simp only [kwAt]
      rw [ih ys hall.2]

theorem kwScan_concat_ws {c : Char} (hc : pyIsSpace c = true) :
    ∀ (x : List Char) (b : Bool), kwScan b (x ++ [c]) = kwScan b x := by
  intro x
  induction x with
  | nil =>
    intro b
    have hany : sqlKeywords.any (fun kw => kwAt kw [c]) = false := by
      rw [List.any_eq_false]
      intro kw hkw
      have hall := (List.all_eq_true.mp kwChars_alpha) kw hkw
      have h0 := kwAt_concat_ws hc kw [] hall
      simp only [List.nil_append] at h0
      rw [h0]
      cases kw with
      | nil =>
        have hhead := (List.all_eq_true.mp kwHeads_alpha) _ hkw
        simp at hhead
      | cons k kr => simp [kwAt]
    show kwScan b [c] = kwScan b []
    simp [kwScan, hany]
  | cons d x' ih =>
    intro b
    show kwScan b (d :: (x' ++ [c])) = kwScan b (d :: x')
    simp only [kwScan]
    rw [ih (isWordChar d)]
    have hany : sqlKeywords.any (fun kw => kwAt kw (d :: (x' ++ [c])))
        = sqlKeywords.any (fun kw => kwAt kw (d :: x')) := by
      apply any_congr
      intro kw hkw
      have hall := (List.all_eq_true.mp kwChars_alpha) kw hkw
      have := kwAt_concat_ws hc kw (d :: x') hall
      simpa using this
    rw [hany]

theorem pyStrip_eq (l : List Char) :
    pyStrip l = List.rdropWhile pyIsSpace (l.dropWhile pyIsSpace) := rfl

theorem kwScan_rdrop (l : List Char) :
    kwScan false (List.rdropWhile pyIsSpace l) = kwScan false l := by
  induction l using List.reverseRecOn with
  | nil => rfl
  | append_singleton xs c ih =>
    cases hc : pyIsSpace c with
    | true =>
      rw [List.rdropWhile_concat_pos _ _ _ hc, ih, kwScan_concat_ws hc]
    | false =>
      rw [List.rdropWhile_concat_neg _ _ _ (by simp [hc])]

theorem containsSqlKeyword_strip (l : List Char) :
    containsSqlKeyword (pyStrip l) = containsSqlKeyword l := by
  rw [pyStrip_eq]
  unfold containsSqlKeyword
  rw [kwScan_rdrop, kwScan_dropWhile]

theorem isPrefixOf_ws_cons {n : List Char}
    (hn : ∀ a ∈ n, pyIsSpace a = false) (hne : n ≠ [])
    {c : Char} (hc : pyIsSpace c = true) (l : List Char) :
    n.isPrefixOf (c :: l) = false := by
  cases n with
  | nil => exact absurd rfl hne
  | cons a n' =>
    have ha := hn a (List.mem_cons_self a n')
    have hac : (a == c) = false := by
      rw [beq_eq_false_iff_ne]
      intro he
      rw [he, hc] at ha
      exact Bool.noConfusion ha
    simp [List.isPrefixOf, hac]

theorem hasSub_ws_cons {n : List Char}
    (hn : ∀ a ∈ n, pyIsSpace a = false) (hne : n ≠ [])
    {c : Char} (hc : pyIsSpace c = true) (l : List Char) :
    hasSub n (c :: l) = hasSub n l := by
  simp [hasSub, isPrefixOf_ws_cons hn hne hc]

theorem hasSub_dropWhile {n : List Char}
    (hn : ∀ a ∈ n, pyIsSpace a = false) (hne : n ≠ []) (l : List Char) :
    hasSub n (l.dropWhile pyIsSpace) = hasSub n l := by
  induction l with
  | nil => rfl
  | cons c rest ih =>
    cases hc : pyIsSpace c with
    | true =>
      rw [List.dropWhile_cons_of_pos hc, ih, hasSub_ws_cons hn hne hc]
    | false =>
      rw [List.dropWhile_cons_of_neg (by simp [hc])]

theorem isPrefixOf_concat_ws {c : Char} (hc : pyIsSpace c = true) :
    ∀ (n x : List Char), (∀ a ∈ n, pyIsSpace a = false) →
    n.isPrefixOf (x ++ [c]) = n.isPrefixOf x := by
  intro n
  induction n with
  | nil =>
    intro x _
    simp [List.isPrefixOf]
  | cons a n' ih =>
    intro x hn
    cases x with
    | nil =>
      have := isPrefixOf_ws_cons hn (by simp) hc []
      simp only [List.nil_append]
      rw [this]
      rfl
    | cons d x' =>
      show (a :: n').isPrefixOf (d :: (x' ++ [c]))
          = (a :: n').isPrefixOf (d :: x')
      simp only [List.isPrefixOf]
      rw [ih x' (fun a' h' => hn a' (List.mem_cons_of_mem a h'))]

theorem hasSub_concat_ws {c : Char} (hc : pyIsSpace c = true)
    {n : List Char} (hn : ∀ a ∈ n, pyIsSpace a = false) (hne : n ≠ []) :
    ∀ (x : List Char), hasSub n (x ++ [c]) = hasSub n x := by
  intro x
  induction x with
  | nil =>
    show hasSub n [c] = hasSub n []
    rw [hasSub_ws_cons hn hne hc]
  | cons d x' ih =>
    show hasSub n (d :: (x' ++ [c])) = hasSub n (d :: x')
    simp only [hasSub]
    rw [ih, ← List.cons_append, isPrefixOf_concat_ws hc n (d :: x') hn]


theorem hasSub_rdrop {n : List Char}
    (hn : ∀ a ∈ n, pyIsSpace a = false) (hne : n ≠ []) (l : List Char) :
    hasSub n (List.rdropWhile pyIsSpace l) = hasSub n l := by
  induction l using List.reverseRecOn with
  | nil => rfl
  | append_singleton xs c ih =>
    cases hc : pyIsSpace c with
    | true =>
      rw [List.rdropWhile_concat_pos _ _ _ hc, ih, hasSub_concat_ws hc hn hne]
    | false =>
      rw [List.rdropWhile_concat_neg _ _ _ (by simp [hc])]

theorem hasSub_strip {n : List Char}
    (hn : ∀ a ∈ n, pyIsSpace a = false) (hne : n ≠ []) (l : List Char) :
    hasSub n (pyStrip l) = hasSub n l := by
  rw [pyStrip_eq, hasSub_rdrop hn hne, hasSub_dropWhile hn hne]

theorem mem_dropWhile_of_not {c : Char} {l : List Char}
    (hm : c ∈ l) (hc : pyIsSpace c = false) :
    c ∈ l.dropWhile pyIsSpace := by
  induction l with
  | nil => simp at hm
  | cons d rest ih =>
    cases hd : pyIsSpace d with
    | true =>
      rw [List.dropWhile_cons_of_pos hd]
      rcases List.mem_cons.mp hm with he | hm'
      · subst he
        rw [hd] at hc
        exact Bool.noConfusion hc
      · exact ih hm'
    | false =>
      rw [List.dropWhile_cons_of_neg (by simp [hd])]
      exact hm

theorem mem_strip_of_not {c : Char} {l : List Char}
    (hm : c ∈ l) (hc : pyIsSpace c = false) : c ∈ pyStrip l := by
  unfold pyStrip
  rw [List.mem_reverse]
  exact mem_dropWhile_of_not
    (by rw [List.mem_reverse]; exact mem_dropWhile_of_not hm hc) hc

theorem pyReplaceChar_append (pat : Char) (rep : List Char)
    (x y : List Char) :
    pyReplaceChar pat rep (x ++ y)
      = pyReplaceChar pat rep x ++ pyReplaceChar pat rep y := by
  simp [pyReplaceChar]

theorem escapeSearch_append (x y : List Char) :
    escapeSearch (x ++ y) = escapeSearch x ++ escapeSearch y := by
  unfold escapeSearch
  rw [pyReplaceChar_append, pyReplaceChar_append, pyReplaceChar_append,
    pyReplaceChar_append]

theorem escapeSearch_single (c : Char) : escapeSearch [c] = escChar c := by
  by_cases h1 : c = '\\'
  · subst h1; decide
  by_cases h2 : c = '%'
  · subst h2; decide
  by_cases h3 : c = '_'
  · subst h3; decide
  by_cases h4 : c = '\''
  · subst h4; decide
  simp [escapeSearch, pyReplaceChar, escChar, h1, h2, h3, h4]

theorem escapeSearch_cons (c : Char) (l : List Char) :
    escapeSearch (c :: l) = escChar c ++ escapeSearch l := by
  have h : c :: l = [c] ++ l := rfl
  rw [h, escapeSearch_append, escapeSearch_single]

theorem wildEsc_cons (c : Char) (rest : List Char) :
    wildEsc (c :: rest)
      = if c = '\\' then
          (match rest with
           | [] => false
           | _ :: rest' => wildEsc rest')
        else if c = '%' then false
        else if c = '_' then false
        else wildEsc rest := by
  cases rest <;> rfl

theorem quotesDoubled_cons (c : Char) (rest : List Char) :
    quotesDoubled (c :: rest)
      = if c = '\'' then
          (match rest with
           | [] => false
           | d :: rest' => if d = '\'' then quotesDoubled rest' else false)
        else quotesDoubled rest := by
  cases rest <;> rfl

theorem wildEsc_escChar (c : Char) (r : List Char) :
    wildEsc (escChar c ++ r) = wildEsc r := by
  by_cases h1 : c = '\\'
  · subst h1
    show wildEsc ('\\' :: '\\' :: r) = wildEsc r
    rw [wildEsc_cons, if_pos rfl]
  by_cases h2 : c = '%'
  · subst h2
    show wildEsc ('\\' :: '%' :: r) = wildEsc r
    rw [wildEsc_cons, if_pos rfl]
  by_cases h3 : c = '_'
  · subst h3
    show wildEsc ('\\' :: '_' :: r) = wildEsc r
    rw [wildEsc_cons, if_pos rfl]
  by_cases h4 : c = '\''
  · subst h4
    show wildEsc ('\'' :: '\'' :: r) = wildEsc r
    rw [wildEsc_cons, if_neg (by decide), if_neg (by decide),
      if_neg (by decide), wildEsc_cons, if_neg (by decide),
      if_neg (by decide), if_neg (by decide)]
  have hc : escChar c = [c] := by
    simp [escChar, h1, h2, h3, h4]
  rw [hc]
  show wildEsc (c :: r) = wildEsc r
  rw [wildEsc_cons, if_neg h1, if_neg h2, if_neg h3]

theorem quotesDoubled_escChar (c : Char) (r : List Char) :
    quotesDoubled (escChar c ++ r) = quotesDoubled r := by
  by_cases h1 : c = '\\'
  · subst h1
    show quotesDoubled ('\\' :: '\\' :: r) = quotesDoubled r
    rw [quotesDoubled_cons, if_neg (by decide), quotesDoubled_cons,
      if_neg (by decide)]
  by_cases h2 : c = '%'
  · subst h2
    show quotesDoubled ('\\' :: '%' :: r) = quotesDoubled r
    rw [quotesDoubled_cons, if_neg (by decide), quotesDoubled_cons,
      if_neg (by decide)]
  by_cases h3 : c = '_'
  · subst h3
    show quotesDoubled ('\\' :: '_' :: r) = quotesDoubled r
    rw [quotesDoubled_cons, if_neg (by decide), quotesDoubled_cons,
      if_neg (by decide)]
  by_cases h4 : c = '\''
  · subst h4
    show quotesDoubled ('\'' :: '\'' :: r) = quotesDoubled r
    rw [quotesDoubled_cons, if_pos rfl]
    show (if '\'' = '\'' then quotesDoubled r else false) = quotesDoubled r
    rw [if_pos rfl]
  have hc : escChar c = [c] := by
    simp [escChar, h1, h2, h3, h4]
  rw [hc]
  show quotesDoubled (c :: r) = quotesDoubled r
  rw [quotesDoubled_cons, if_neg h4]

theorem wildEsc_escape (l : List Char) :
    wildEsc (escapeSearch l) = true := by
  induction l with
  | nil => rfl
  | cons c rest ih =>
    rw [escapeSearch_cons, wildEsc_escChar]
    exact ih

theorem quotesDoubled_escape (l : List Char) :
    quotesDoubled (escapeSearch l) = true := by
  induction l with
  | nil => rfl
  | cons c rest ih =>
    rw [escapeSearch_cons, quotesDoubled_escChar]
    exact ih

theorem ws_in_class {c : Char} (hc : pyIsSpace c = true) :
    inSearchClass c = true := by
  simp [inSearchClass, hc]

theorem sanitize_cases (s : String) :
    _sanitize_search s = none ∨
    (_sanitize_search s = some (String.mk (pyStrip s.data)) ∧
      (pyStrip s.data).isEmpty = false ∧
      containsSqlKeyword (pyStrip s.data) = false ∧
      hasSub ['-', '-'] (pyStrip s.data) = false ∧
      hasSub [';'] (pyStrip s.data) = false ∧
      (pyStrip s.data).all inSearchClass = true) := by
  unfold _sanitize_search
  dsimp only
  split_ifs with h1 h2 h3 h4
  · exact Or.inl rfl
  · exact Or.inl rfl
  · exact Or.inl rfl
  · exact Or.inl rfl
  · right
    rw [Bool.not_eq_true] at h1 h2 h4
    rw [Bool.not_eq_true, Bool.or_eq_false_iff] at h3
    have h4' : (pyStrip s.data).all inSearchClass = true := by
      cases hv : (pyStrip s.data).all inSearchClass
      · rw [hv] at h4
        simp at h4
      · rfl
    exact ⟨rfl, h1, h2, h3.1, h3.2, h4'⟩

/-- C4: the search sanitizer rejects every input containing a
word-bounded case-insensitive SQL keyword, `--`, `;`, or any character
outside `[\w\s.,\-:/'\"()]`; an accepted string reaches the SQL only
through `_build_search_where`, with single quotes doubled and ILIKE
wildcards backslash-escaped under each clause's `ESCAPE '\'`; and a
rejected search makes `read_table_page` run the unfiltered query with no
user-derived WHERE clause. -/
theorem c4_search_sanitizer (s : String)
    (colInfo : List (String × String)) :
    ((containsSqlKeyword s.data = true ∨
      hasSub ['-', '-'] s.data = true ∨ hasSub [';'] s.data = true ∨
      (∃ c ∈ s.data, inSearchClass c = false)) →
      _sanitize_search s = none) ∧
    (∀ t, _sanitize_search s = some t →
      readTablePageWhere (some s) colInfo
          = _build_search_where t colInfo ∧
      wildEsc (escapeSearch t.data) = true ∧
      quotesDoubled (escapeSearch t.data) = true ∧
      (∀ col, ∃ pre : String,
        searchClause (escapeSearch t.data) col
          = pre ++ String.mk (escapeSearch t.data) ++ "%' ESCAPE '\\'")) ∧
    (_sanitize_search s = none →
      readTablePageWhere (some s) colInfo = "") := by
  refine ⟨?_, ?_, ?_⟩
  · intro hbad
    rcases sanitize_cases s with hn | ⟨_, _, hkw, hdd, hsc, hall⟩
    · exact hn
    exfalso
    rcases hbad with hb | hb | hb | ⟨c, hm, hcl⟩
    · rw [containsSqlKeyword_strip, hb] at hkw
      exact Bool.noConfusion hkw
    · rw [hasSub_strip (by decide) (by decide), hb] at hdd
      exact Bool.noConfusion hdd
    · rw [hasSub_strip (by decide) (by decide), hb] at hsc
      exact Bool.noConfusion hsc
    · have hws : pyIsSpace c = false := by
        cases hw : pyIsSpace c with
        | false => rfl
        | true =>
          rw [ws_in_class hw] at hcl
          exact Bool.noConfusion hcl
      have hmem := mem_strip_of_not hm hws
      rw [List.all_eq_true] at hall
      rw [hall c hmem] at hcl
      exact Bool.noConfusion hcl
  · intro t ht
    rcases sanitize_cases s with hn | ⟨hs, hne, _, _, _, _⟩
    · rw [hn] at ht
      exact Option.noConfusion ht
    rw [hs] at ht
    have htv : t = String.mk (pyStrip s.data) :=
      ((Option.some.injEq _ _).mp ht).symm
    have hsd : s.data.isEmpty = false := by
      cases hd : s.data with
      | nil =>
        rw [show pyStrip s.data = [] from by rw [hd]; rfl] at hne
        exact Bool.noConfusion hne
      | cons a l => rfl
    constructor
    · unfold readTablePageWhere
      dsimp only
      rw [if_neg (by simp [hsd]), hs]
      dsimp only
      rw [if_neg (by show ¬((pyStrip s.data).isEmpty = true); simp [hne]),
        htv]
    refine ⟨wildEsc_escape t.data, quotesDoubled_escape t.data, ?_⟩
    intro col
    by_cases hty : (["VARCHAR", "UTF8", "STRING", "TEXT"].any
        (fun ty => hasSub ty.data (col.2.data.map Char.toUpper))) = true
    · refine ⟨"\"" ++ col.1 ++ "\" ILIKE '%", ?_⟩
      unfold searchClause
      rw [if_pos hty]
    · refine ⟨"CAST(\"" ++ col.1 ++ "\" AS VARCHAR) ILIKE '%", ?_⟩
      unfold searchClause
      rw [if_neg hty]
  · intro hn
    cases hse : s.data.isEmpty with
    | true =>
      unfold readTablePageWhere
      dsimp only
      rw [if_pos (by simp [hse])]
    | false =>
      unfold readTablePageWhere
      dsimp only
      rw [if_neg (by simp [hse]), hn]

/-- Witness for C4 at concrete inputs: a string containing a `;` and a
word-bounded DROP is rejected and yields no WHERE clause; an accepted
string has its `%` wildcard escaped. -/
theorem c4_search_sanitizer_witness :
    _sanitize_search "1; DROP TABLE users" = none ∧
    readTablePageWhere (some "1; DROP TABLE users") [("a", "VARCHAR")]
      = "" ∧
    wildEsc (escapeSearch "john_doe 100".data) = true ∧
    escapeSearch "john_doe 100".data = "john\\_doe 100".data := by
  have h := c4_search_sanitizer "1; DROP TABLE users" [("a", "VARCHAR")]
  have hn := h.1 (Or.inl (by decide))
  have h2 := c4_search_sanitizer "john_doe 100" [("a", "VARCHAR")]
  have hs : _sanitize_search "john_doe 100" = some "john_doe 100" := by
    decide
  exact ⟨hn, h.2.2 hn, (h2.2.1 "john_doe 100" hs).2.1, by decide⟩

/-- A script-tag match consumes at least one character, so the scan's
fuel (the input length) suffices. -/
theorem scriptMatchLen_pos :
    ∀ l n, scriptMatchLen l = some n → 1 ≤ n := by
  intro l n h
  unfold scriptMatchLen at h
  split at h
  · cases hld : l.drop 7 with
    | nil => rw [hld] at h; exact absurd h (by simp)
    | cons c rest =>
      rw [hld] at h
      dsimp only at h
      split at h
      · cases hf : findClose rest with
        | none => rw [hf] at h; exact absurd h (by simp)
        | some k =>
          rw [hf] at h
          simp only [Option.map_some', Option.some.injEq] at h
          omega
      · exact absurd h (by simp)
  · exact absurd h (by simp)

/-- The script-strip scan does not depend on the fuel as long as the
fuel covers the input length. -/
theorem scriptStripF_fuelIrrel :
    ∀ f₁ f₂ l, l.length ≤ f₁ → l.length ≤ f₂ →
      scriptStripF f₁ l = scriptStripF f₂ l := by
  intro f₁
  induction f₁ with
  | zero =>
    intro f₂ l h1 h2
    have hl : l = [] := List.eq_nil_of_length_eq_zero (Nat.le_zero.mp h1)
    subst hl
    cases f₂ <;> rfl
  | succ f ih =>
    intro f₂ l h1 h2
    cases l with
    | nil => cases f₂ <;> rfl
    | cons c rest =>
      cases f₂ with
      | zero => exact absurd h2 (by simp)
      | succ f₂' =>
        simp only [scriptStripF]
        cases hm : scriptMatchLen (c :: rest) with
        | none =>
          simp only [List.length_cons] at h1 h2
          exact congrArg (c :: ·)
            (ih f₂' rest (Nat.le_of_succ_le_succ h1)
              (Nat.le_of_succ_le_succ h2))
        | some n =>
          have hn := scriptMatchLen_pos _ _ hm
          have hd : ((c :: rest).drop n).length ≤ rest.length := by
            rw [List.length_drop, List.length_cons]
            omega
          simp only [List.length_cons] at h1 h2
          exact ih f₂' _ (le_trans hd (Nat.le_of_succ_le_succ h1))
            (le_trans hd (Nat.le_of_succ_le_succ h2))

/-- A complete, closed script element is removed wherever it stands: the
pass continues after the closing tag on the untouched remainder. -/
theorem scriptStrip_removes (r : List Char) :
    scriptStrip ("<script>hack</script>".data ++ r) = scriptStrip r := by
  show scriptStripF (r.length + 20) r = scriptStripF r.length r
  exact scriptStripF_fuelIrrel _ _ r (by omega) (Nat.le_refl _)

/-- **C6.** The claim says the sanitizer's output never contains
`<script`; it does: `_SCRIPT_TAG_RE` requires a closing `</script>`, so
an unclosed `<script>` tag passes through untouched. -/
theorem c6_script_counterexample :
    _sanitize_svg "<script>alert(1)".data
      = Except.ok "<script>alert(1)".data ∧
    hasSub "<script".data "<script>alert(1)".data = true :=
  ⟨rfl, by decide⟩

/-- **C6** (amended): `_sanitize_svg` returns exactly the three-pass
cleaned text (script-tag strip, javascript-href strip, two `onXxx`
strips) whenever its UTF-8 encoding fits the 2 MB ceiling, and raises
`ValueError` when it does not; a complete `<script>…</script>` span is
removed wherever it occurs, and quoted `javascript:` hrefs and quoted
`onXxx` attributes are stripped — but the cleaned text can still contain
`<script` when the tag is unclosed, as the counterexample shows. -/
theorem c6_sanitize_svg (l r : List Char) :
    (utf8Len (cleanSvg l) ≤ _MAX_SVG_BYTES →
      _sanitize_svg l = Except.ok (cleanSvg l)) ∧
    (_MAX_SVG_BYTES < utf8Len (cleanSvg l) →
      _sanitize_svg l = Except.error "SVG exceeds size limit") ∧
    scriptStrip ("<script>hack</script>".data ++ r) = scriptStrip r ∧
    cleanSvg "<a href=\"javascript:alert(1)\">x</a>".data
      = "<a >x</a>".data ∧
    cleanSvg "<a onclick=\"evil()\">x</a>".data = "<a>x</a>".data := by
  refine ⟨?_, ?_, scriptStrip_removes r, by decide, by decide⟩
  · intro hle
    unfold _sanitize_svg
    dsimp only
    rw [if_neg (by omega)]
  · intro hgt
    unfold _sanitize_svg
    dsimp only
    rw [if_pos (by omega)]

/-- Witness for C6 at a concrete input below the ceiling: a quoted
`onload` handler is removed and the result is returned as `ok`. -/
theorem c6_sanitize_svg_witness :
    _sanitize_svg "<svg onload=\"evil()\"/>".data
      = Except.ok "<svg/>".data ∧
    scriptStrip ("<script>hack</script>".data ++ "<svg/>".data)
      = scriptStrip "<svg/>".data := by
  have h := c6_sanitize_svg "<svg onload=\"evil()\"/>".data "<svg/>".data
  have hle : utf8Len (cleanSvg "<svg onload=\"evil()\"/>".data)
      ≤ _MAX_SVG_BYTES := by decide
  refine ⟨?_, h.2.2.1⟩
  rw [h.1 hle]
  exact congrArg Except.ok (by decide)

/-- Setting a Nat key makes it visible. -/
theorem nlookup_nset_self {α : Type} (l : List (Nat × α)) (k : Nat)
    (v : α) : nlookup (nset l k v) k = some v := by
  induction l with
  | nil => simp [nset, nlookup]
  | cons hd tl ih =>
    obtain ⟨k', v'⟩ := hd
    by_cases h : k' = k
    · simp [nset, nlookup, h]
    · simp [nset, nlookup, h, ih]

/-- Setting one Nat key leaves every other key's binding unchanged. -/
theorem nlookup_nset_ne {α : Type} (l : List (Nat × α)) (k k' : Nat)
    (v : α) (hne : k ≠ k') : nlookup (nset l k v) k' = nlookup l k' := by
  induction l with
  | nil => simp [nset, nlookup, hne]
  | cons hd tl ih =>
    obtain ⟨k0, v0⟩ := hd
    by_cases h : k0 = k
    · subst h
      simp [nset, nlookup, hne]
    · simp [nset, nlookup, h, ih]

/-- **C1.** Blocking-response contract of `wait_for_response` and the
`response` branch of `_handle_ws_event`: (install) entering a wait
creates a fresh pending future, installs it under the card id and
leaves other card ids untouched; (resolve) a browser `response` event
for a card with a pending future resolves exactly that future with the
result dict whose keys are `action, card_id, message, artifact_id,
summary, values`, changes nothing else, and the future is single-shot
(a second `response` event is a no-op); (timeout) an elapsed deadline
makes the waiter return `{action: "timeout", card_id}`; (removal) on
both exit paths the card's `_pending_responses` entry is removed and
other card ids are untouched; (replace) a second wait on the same card
id installs its own future while the prior future's state is
unchanged, and the prior waiter can still time out on its own deadline
with its own timeout result. -/
theorem c1_wait_for_response (s : SrvSt) (w w₀ : Nat) (cid cid' : String)
    (p : RespPayload) (fid : Nat) (r : CardRec) :
    (nlookup s.waiters w = none →
      Step s (startPost s w cid) ∧
      alookup (startPost s w cid).pendingResponses cid = some s.nextF ∧
      nlookup (startPost s w cid).futures s.nextF = some FutSt.pending ∧
      nlookup (startPost s w cid).waiters w
        = some (WaiterPh.waiting cid s.nextF) ∧
      (cid' ≠ cid →
        alookup (startPost s w cid).pendingResponses cid'
          = alookup s.pendingResponses cid')) ∧
    (alookup s.pendingResponses cid = some fid →
      nlookup s.futures fid = some FutSt.pending →
      Step s (respondPost s cid p fid) ∧
      nlookup (respondPost s cid p fid).futures fid
        = some (FutSt.resolved (mkResult cid p)) ∧
      (mkResult cid p).map Prod.fst
        = ["action", "card_id", "message", "artifact_id", "summary",
           "values"] ∧
      alookup (mkResult cid p) "action"
        = some (JVal.s (p.action.getD "confirm")) ∧
      alookup (mkResult cid p) "card_id" = some (JVal.s cid) ∧
      alookup (mkResult cid p) "values"
        = some (JVal.pdict p.formValues) ∧
      (respondPost s cid p fid).pendingResponses = s.pendingResponses ∧
      (∀ g, g ≠ fid →
        nlookup (respondPost s cid p fid).futures g
          = nlookup s.futures g) ∧
      (∀ q : RespPayload,
        Step (respondPost s cid p fid) (respondPost s cid p fid))) ∧
    (nlookup s.waiters w = some (WaiterPh.waiting cid fid) →
      nlookup s.futures fid = some FutSt.pending →
      Step s (timeoutPost s w cid fid) ∧
      nlookup (timeoutPost s w cid fid).waiters w
        = some (WaiterPh.done
            [("action", JVal.s "timeout"), ("card_id", JVal.s cid)]) ∧
      ((s.pendingResponses.map Prod.fst).Nodup →
        alookup (timeoutPost s w cid fid).pendingResponses cid = none) ∧
      (cid' ≠ cid →
        alookup (timeoutPost s w cid fid).pendingResponses cid'
          = alookup s.pendingResponses cid')) ∧
    (nlookup s.waiters w = some (WaiterPh.waiting cid fid) →
      nlookup s.futures fid = some (FutSt.resolved r) →
      Step s (finishPost s w cid r) ∧
      nlookup (finishPost s w cid r).waiters w
        = some (WaiterPh.done r) ∧
      ((s.pendingResponses.map Prod.fst).Nodup →
        alookup (finishPost s w cid r).pendingResponses cid = none) ∧
      (cid' ≠ cid →
        alookup (finishPost s w cid r).pendingResponses cid'
          = alookup s.pendingResponses cid') ∧
      (finishPost s w cid r).futures = s.futures) ∧
    (alookup s.pendingResponses cid = some fid → fid < s.nextF →
      nlookup s.waiters w = none →
      alookup (startPost s w cid).pendingResponses cid = some s.nextF ∧
      nlookup (startPost s w cid).futures fid = nlookup s.futures fid ∧
      (nlookup (startPost s w cid).waiters w₀
          = some (WaiterPh.waiting cid fid) →
        nlookup (startPost s w cid).futures fid = some FutSt.pending →
        Step (startPost s w cid)
          (timeoutPost (startPost s w cid) w₀ cid fid) ∧
        nlookup (timeoutPost (startPost s w cid) w₀ cid fid).waiters w₀
          = some (WaiterPh.done (timeoutResult cid)))) := by
  refine ⟨?_, ?_, ?_, ?_, ?_⟩
  · intro hw
    refine ⟨Step.start s w cid hw, alookup_aset_self _ _ _,
      nlookup_nset_self _ _ _, nlookup_nset_self _ _ _, ?_⟩
    intro hne
    exact alookup_aset_ne _ _ _ _ (Ne.symm hne)
  · intro hf hp
    refine ⟨Step.respondHit s cid p fid hf hp, nlookup_nset_self _ _ _,
      rfl, rfl, rfl, rfl, rfl, ?_, ?_⟩
    · intro g hg
      exact nlookup_nset_ne _ _ _ _ (Ne.symm hg)
    · intro q
      refine Step.respondMiss _ cid q ?_
      intro g hg
      have hfg : g = fid := by
        have : some fid = some g := hf.symm.trans hg
        exact (Option.some.injEq _ _).mp this.symm
      subst hfg
      show nlookup (nset s.futures g (FutSt.resolved (mkResult cid p))) g
        ≠ some FutSt.pending
      rw [nlookup_nset_self]
      simp
  · intro hw hp
    refine ⟨Step.timeout s w cid fid hw hp, nlookup_nset_self _ _ _,
      ?_, ?_⟩
    · intro hnd
      exact alookup_aerase_self _ _ hnd
    · intro hne
      exact alookup_aerase_ne _ _ _ (Ne.symm hne)
  · intro hw hr
    refine ⟨Step.finish s w cid fid r hw hr, nlookup_nset_self _ _ _,
      ?_, ?_, rfl⟩
    · intro hnd
      exact alookup_aerase_self _ _ hnd
    · intro hne
      exact alookup_aerase_ne _ _ _ (Ne.symm hne)
  · intro hf hlt hw
    refine ⟨alookup_aset_self _ _ _,
      nlookup_nset_ne _ _ _ _ (Ne.symm (Nat.ne_of_lt hlt)), ?_⟩
    intro hw0 hp0
    exact ⟨Step.timeout _ w₀ cid fid hw0 hp0, nlookup_nset_self _ _ _⟩

/-- Witness for C1: from the empty server state, a wait on card `"c"`
installs future 0; in the resulting state a browser response resolves
it with the result dict, and the timeout exit removes the entry. -/
theorem c1_wait_for_response_witness :
    Step ⟨[], [], [], 0⟩ (startPost ⟨[], [], [], 0⟩ 0 "c") ∧
    alookup (startPost ⟨[], [], [], 0⟩ 0 "c").pendingResponses "c"
      = some 0 ∧
    Step (startPost ⟨[], [], [], 0⟩ 0 "c")
      (respondPost (startPost ⟨[], [], [], 0⟩ 0 "c") "c"
        ⟨none, JVal.null, false, false, false, [], JVal.null⟩ 0) ∧
    alookup
      (mkResult "c" ⟨none, JVal.null, false, false, false, [], JVal.null⟩)
      "action" = some (JVal.s "confirm") ∧
    Step (startPost ⟨[], [], [], 0⟩ 0 "c")
      (timeoutPost (startPost ⟨[], [], [], 0⟩ 0 "c") 0 "c" 0) ∧
    alookup
      (timeoutPost (startPost ⟨[], [], [], 0⟩ 0 "c") 0 "c" 0).pendingResponses
      "c" = none := by
  have h0 := c1_wait_for_response ⟨[], [], [], 0⟩ 0 0 "c" "d"
    ⟨none, JVal.null, false, false, false, [], JVal.null⟩ 0 []
  have h1 := c1_wait_for_response (startPost ⟨[], [], [], 0⟩ 0 "c") 0 0
    "c" "d" ⟨none, JVal.null, false, false, false, [], JVal.null⟩ 0 []
  have ha := h0.1 rfl
  have hb := h1.2.1 rfl rfl
  have hc := h1.2.2.1 rfl rfl
  exact ⟨ha.1, ha.2.1, hb.1, hb.2.2.2.1, hc.1, hc.2.2.1 (by decide)⟩

end Vitrine


